import Mathlib

/-
Verification development for the hash based group-by/aggregation engine
(velox/exec/GroupingSet.cpp).  Each section embeds one slice of the source as
executable Lean definitions and proves the corresponding specification claim
about it.  External collaborators (hash table, row container, spill reader,
memory pool) enter the embedding as explicit parameters or oracles; everything
translated from GroupingSet.cpp itself follows the source line by line.
-/

set_option maxHeartbeats 1000000

namespace VeloxGS

/-- bits::roundUp (velox/common/base/BitUtil.h): rounds value up to the next
multiple of factor. -/
def roundUp (value factor : Nat) : Nat := (value + factor - 1) / factor * factor

/-- bits::nbytes (velox/common/base/BitUtil.h): bytes needed to hold the given
number of bits. -/
def nbytes (bitCount : Nat) : Nat := (bitCount + 7) / 8

/-! ### Global accumulator row layout (GroupingSet::initializeGlobalAggregation) -/

/-- Fixed width storage footprint and alignment of one accumulator, as consumed
by the layout loops of GroupingSet::initializeGlobalAggregation. -/
structure Accumulator where
  fixedWidthSize : Nat
  alignment : Nat
deriving DecidableEq, Repr

/-- RowContainer::kNumAccumulatorFlags: one null bit and one initialized bit per
accumulator slot (spec section 3: a packed pair of flags per accumulator). -/
def kNumAccumulatorFlags : Nat := 2

/-- Modelled from the spec: RowContainer::combineAlignments is not under src/;
the spec states the row alignment is the maximum required by any accumulator. -/
def combineAlignments (a b : Nat) : Nat := max a b

/-- Running state of the placement loops in
GroupingSet::initializeGlobalAggregation: the running byte offset, the running
flag bit offset, the combined alignment so far, and the placements made so far,
each recorded as (offset, fixedWidthSize, alignment). -/
structure LayoutState where
  offset : Nat
  accumulatorFlagsOffset : Nat
  alignment : Nat
  placements : List (Nat × Nat × Nat)
deriving DecidableEq, Repr

/-- One iteration of the three structurally identical placement loops in
GroupingSet::initializeGlobalAggregation (GroupingSet.cpp lines 459-525):
round the offset up to the accumulator alignment, bind the accumulator at that
offset, advance the offset by its fixed width, advance the flag offset, and
combine alignments. -/
def placeAccumulator (st : LayoutState) (acc : Accumulator) : LayoutState :=
  let off := roundUp st.offset acc.alignment
  { offset := off + acc.fixedWidthSize
    accumulatorFlagsOffset := st.accumulatorFlagsOffset + kNumAccumulatorFlags
    alignment := combineAlignments acc.alignment st.alignment
    placements := st.placements ++ [(off, acc.fixedWidthSize, acc.alignment)] }

/-- The full ordered accumulator sequence processed by
GroupingSet::initializeGlobalAggregation: plain aggregates first, then the
optional sorted aggregation pseudo accumulator, then the non null distinct
aggregation pseudo accumulators, exactly the order of the three source loops. -/
def globalAccumulators (aggs : List Accumulator) (sorted : Option Accumulator)
    (distincts : List (Option Accumulator)) : List Accumulator :=
  aggs ++ sorted.toList ++ distincts.filterMap id

/-- Byte offset of the 4 byte row size field: the flag bits come first
(GroupingSet.cpp lines 443-455). -/
def globalRowSizeOffset (aggs : List Accumulator) (sorted : Option Accumulator)
    (distincts : List (Option Accumulator)) : Nat :=
  nbytes ((globalAccumulators aggs sorted distincts).length * kNumAccumulatorFlags)

/-- GroupingSet::initializeGlobalAggregation layout computation: flag bit pairs,
then the uint32 row size field, then each accumulator at an offset rounded up
to its alignment. -/
def globalRowLayout (aggs : List Accumulator) (sorted : Option Accumulator)
    (distincts : List (Option Accumulator)) : LayoutState :=
  (globalAccumulators aggs sorted distincts).foldl placeAccumulator
    { offset := globalRowSizeOffset aggs sorted distincts + 4
      accumulatorFlagsOffset := 0
      alignment := 1
      placements := [] }

/-! ### Pre-grouped run boundary detection (GroupingSet::addInput) -/

/-- The descending boundary scan of GroupingSet::addInput (GroupingSet.cpp
lines 185-196): starting at index size - 2 and walking down, stop at the first
adjacent pair of rows whose pre-grouped keys differ; the split point is one
past that index.  A batch row is carried as the (encoded) tuple of its
pre-grouped key columns, so equalKeys on adjacent rows is equality of list
elements. -/
def boundaryScan (ks : List Nat) : Nat → Option Nat
  | 0 => if ks.getD 0 0 = ks.getD 1 0 then none else some 1
  | i + 1 =>
    if ks.getD (i + 1) 0 = ks.getD (i + 2) 0 then boundaryScan ks i
    else some (i + 2)

/-- GroupingSet::addInput in keyed mode with a non empty pre-grouped key list
(lines 178-203): returns the number of rows processed through
grouping-and-accumulate in this call and, when a run boundary exists, the
index of the first deferred row (firstRemainingRow_, with remainingInput_
kept for the next batch).  The source loop runs from size - 2 down to 0 and
does not run at all for batches of fewer than two rows. -/
def addInputSplit (ks : List Nat) : Nat × Option Nat :=
  if ks.length ≥ 2 then
    match boundaryScan ks (ks.length - 2) with
    | some b => (b, some b)
    | none => (ks.length, none)
  else (ks.length, none)

/-! ### Distinct-only spill merge recovery (GroupingSet::mergeNextWithoutAggregates) -/

/-- One row surfaced by the tree-of-losers merge reader during distinct-only
spill recovery: the grouping key (encoded as one value, since distinct-only
rows consist of key columns only) and the ordinal id of the spill stream the
row came from.  Stream ids below the partition's pre-spill distinct-file count
identify rows already output as distinct before spilling started
(GroupingSet.cpp lines 1273-1277). -/
structure SpillStreamRow where
  key : Nat
  sid : Nat
deriving DecidableEq, Repr

/-- The loop of GroupingSet::mergeNextWithoutAggregates (lines 1278-1311) over
one partition's merged stream.  t is
numDistinctSpillFilesPerPartition_[outputSpillPartition_], maxRows is
maxOutputRows, numOut is numOutputRows and nd the local newDistinct flag.
nextWithEquals surfaces the head row together with whether the following row
carries an equal key; a true equal flag pops and continues the run, a false
one ends the run and copies its current (last) row to output when no row of
the run came from a pre-spill distinct stream.  Returns the rows copied to
output and the stream left for a later call. -/
def mergeLoop (t maxRows : Nat) :
    List SpillStreamRow → Nat → Bool → List SpillStreamRow × List SpillStreamRow
  | [], _, _ => ([], [])
  | [r], numOut, nd =>
    if numOut < maxRows then
      if (if r.sid < t then false else nd) then ([r], []) else ([], [])
    else ([], [r])
  | r :: r2 :: rest, numOut, nd =>
    if numOut < maxRows then
      let nd2 := if r.sid < t then false else nd
      if r2.key = r.key then mergeLoop t maxRows (r2 :: rest) numOut nd2
      else if nd2 then
        (r :: (mergeLoop t maxRows (r2 :: rest) (numOut + 1) true).1,
          (mergeLoop t maxRows (r2 :: rest) (numOut + 1) true).2)
      else mergeLoop t maxRows (r2 :: rest) numOut true
    else ([], r :: r2 :: rest)

/-- GroupingSet::mergeNextWithoutAggregates over one spill partition whose
pre-spill distinct-file count is t: newDistinct starts true and numOutputRows
at zero (lines 1278-1279). -/
def mergeNextWithoutAggregates (t maxRows : Nat) (s : List SpillStreamRow) :
    List SpillStreamRow × List SpillStreamRow :=
  mergeLoop t maxRows s 0 true

/-- Rows of one run of equal keys: key k and one row per contributing stream
ordinal. -/
def runRows (k : Nat) (ids : List Nat) : List SpillStreamRow :=
  ids.map (fun i => { key := k, sid := i })

/-- A merged stream assembled from runs of equal keys; the ordered multi-way
merge guarantees rows with equal keys are adjacent in the stream. -/
def streamOfRuns (runs : List (Nat × List Nat)) : List SpillStreamRow :=
  (runs.map (fun p => runRows p.1 p.2)).flatten

/-- The output the claim predicts: one representative row (the run's last row)
for every run none of whose rows comes from a pre-spill distinct stream, and
nothing for a run any of whose rows does. -/
def expectedDistinctOutput (t : Nat) (runs : List (Nat × List Nat)) :
    List SpillStreamRow :=
  runs.filterMap (fun p =>
    if p.2.all (fun i => decide (t ≤ i)) then
      p.2.getLast?.map (fun i => { key := p.1, sid := i })
    else none)

/-! ### Output extraction and iterator exhaustion (GroupingSet::getOutput) -/

/-- int32 maximum, the exhausted marker written into
RowContainerIterator::allocationIndex by getGlobalAggregationOutput (line
631). -/
def int32Max : Nat := 2147483647

/-- The fields of RowContainerIterator used by GroupingSet::getOutput:
allocationIndex gates the global paths and rowNumber is the cursor position
consumed by RowContainer::listRows in the keyed path. -/
structure RowContainerIteratorM where
  allocationIndex : Nat
  rowNumber : Nat
deriving DecidableEq, Repr

/-- One row of a spilled aggregate-mode merge stream: the grouping key
(encoded as one value) and that spilled row's intermediate accumulator
payload, carried opaquely; merging payloads is the external Aggregate
contract (addSingleGroupIntermediateResults, spec section 6). -/
structure AggSpillRow where
  key : Nat
  payload : Nat
deriving DecidableEq, Repr

/-- One finalized non-empty spill partition awaiting distinct-mode recovery:
its partition number, its pre-spill distinct-file count
(numDistinctSpillFilesPerPartition_[num]) and its ordered merge stream. -/
structure DistinctPartitionM where
  num : Nat
  distinctFileCount : Nat
  rows : List SpillStreamRow
deriving DecidableEq, Repr

/-- One finalized non-empty spill partition awaiting aggregate-mode
recovery. -/
structure AggPartitionM where
  num : Nat
  rows : List AggSpillRow
deriving DecidableEq, Repr

/-- The state read by getOutput and getOutputWithSpill: the dispatch flags
(isGlobal_, default global grouping set mode, hasSpilled(), isDistinct()),
the single computed global aggregate row, the synthesized grouping set rows,
the in-memory table, and the spill recovery fields of lines 1077-1140:
whether mergeRows_ and merge_ are non null, outputSpillPartition_ (-1 before
recovery selects a partition), the active partition's distinct-file count and
remaining merge stream, and the finalized non-empty spill partitions still to
be read (finishSpill and removeEmptyPartitions, lines 1109-1116, produced
them; exactly one of the two partition families is populated, selected by
isDistinctFlag).  The input/output spiller identities behind hasSpilled() are
the subject of the spill state machine modelled below. -/
structure OutputStateM (G : Type) where
  globalMode : Bool
  defaultGGSMode : Bool
  globalRow : G
  ggsRows : List G
  tableExists : Bool
  tableRows : List G
  hasSpilledFlag : Bool
  isDistinctFlag : Bool
  mergeRowsExists : Bool
  mergeExists : Bool
  outputSpillPartition : Int
  currentT : Nat
  currentDistinctRows : List SpillStreamRow
  currentAggRows : List AggSpillRow
  distinctParts : List DistinctPartitionM
  aggParts : List AggPartitionM
deriving DecidableEq, Repr

/-- The rows one getOutput call emits: table or global rows on the cursor
paths, spilled distinct rows, or merged (key, accumulator) groups on the
aggregate recovery path. -/
inductive GetOutputRowsM (G : Type) where
  | cursorRows (rows : List G) : GetOutputRowsM G
  | distinctRows (rows : List SpillStreamRow) : GetOutputRowsM G
  | aggRows (rows : List (Nat × Nat)) : GetOutputRowsM G
deriving DecidableEq, Repr

/-- GroupingSet::getGlobalAggregationOutput (lines 597-633): extracts the one
global row while allocationIndex is 0, then marks the iterator exhausted with
int32 max; with a non zero allocationIndex it returns false at once. -/
def getGlobalAggregationOutputM {G : Type} (g : G)
    (it : RowContainerIteratorM) : Bool × RowContainerIteratorM × List G :=
  if it.allocationIndex ≠ 0 then (false, it, [])
  else (true, { it with allocationIndex := int32Max }, [g])

/-- GroupingSet::getDefaultGlobalGroupingSetOutput (lines 635-692) iterator
behaviour: gated by the same allocationIndex and delegating to
getGlobalAggregationOutputM, which marks the iterator exhausted; emits one
synthesized row per declared global grouping set. -/
def getDefaultGlobalGroupingSetOutputM {G : Type} (g : G) (ggsRows : List G)
    (it : RowContainerIteratorM) : Bool × RowContainerIteratorM × List G :=
  if it.allocationIndex ≠ 0 then (false, it, [])
  else ((getGlobalAggregationOutputM g it).1,
    (getGlobalAggregationOutputM g it).2.1, ggsRows)

/-- Modelled from the spec: RowContainer::listRows is not under src/; per the
consumed interface (spec section 6) it surfaces up to maxRows rows from the
cursor and advances it, with the byte budget abstracted away.  Returns the
number of rows surfaced from position rowNumber. -/
def listRowsM {G : Type} (rows : List G) (rowNumber maxRows : Nat) : Nat :=
  min maxRows (rows.length - rowNumber)

/-- GroupingSet::prepareNextSpillPartitionOutput (lines 1127-1140): asserts
merge_ and outputSpillPartition_ agree, drops the finished merge reader, and
either reports exhaustion of the partition set or selects the next partition
(asserting it differs from the current one) and opens an ordered reader over
it. -/
def prepareNextSpillPartitionOutputM {G : Type} (st : OutputStateM G) :
    Except String (Bool × OutputStateM G) :=
  if ((!st.mergeExists) != decide (st.outputSpillPartition = -1)) = true then
    Except.error "prepareNextSpillPartitionOutput: merge_ disagrees with outputSpillPartition_"
  else
    let st1 := { st with mergeExists := false }
    if st1.isDistinctFlag then
      match st1.distinctParts with
      | [] => Except.ok (false, st1)
      | p :: rest =>
        if st1.outputSpillPartition = Int.ofNat p.num then
          Except.error "prepareNextSpillPartitionOutput: partition repeated"
        else Except.ok (true, { st1 with
          outputSpillPartition := Int.ofNat p.num
          currentT := p.distinctFileCount
          currentDistinctRows := p.rows
          mergeExists := true
          distinctParts := rest })
    else
      match st1.aggParts with
      | [] => Except.ok (false, st1)
      | p :: rest =>
        if st1.outputSpillPartition = Int.ofNat p.num then
          Except.error "prepareNextSpillPartitionOutput: partition repeated"
        else Except.ok (true, { st1 with
          outputSpillPartition := Int.ofNat p.num
          currentAggRows := p.rows
          mergeExists := true
          aggParts := rest })

/-- GroupingSet::mergeNextWithoutAggregates (lines 1256-1315) for one call
across partitions: the active merge stream is drained by the single-partition
loop (mergeLoop); a stream exhausted with rows already emitted ends the call,
while a stream exhausted with nothing emitted advances to the next spill
partition through prepareNextSpillPartitionOutput and continues (newDistinct
is back to true at every run boundary, so the loop state at the switch is the
fresh one).  The explicit partition list argument always equals the state's
remaining partitions and carries the structural recursion. -/
def mergeNextWithoutAggregatesFullM {G : Type} (maxRows : Nat) :
    List DistinctPartitionM → OutputStateM G →
    Except String (Bool × OutputStateM G × List SpillStreamRow)
  | [], st =>
    match mergeLoop st.currentT maxRows st.currentDistinctRows 0 true with
    | (out, rest) =>
      if out.isEmpty then
        if maxRows = 0 then
          Except.ok (false, { st with currentDistinctRows := rest }, [])
        else
          match prepareNextSpillPartitionOutputM
              { st with currentDistinctRows := [], distinctParts := [] } with
          | Except.error e => Except.error e
          | Except.ok (_, st2) =>
            -- prepareNext on an empty partition set can only report
            -- exhaustion of the partition set
            Except.ok (false, st2, [])
      else
        Except.ok (true, { st with currentDistinctRows := rest }, out)
  | p :: rest2, st =>
    match mergeLoop st.currentT maxRows st.currentDistinctRows 0 true with
    | (out, rest) =>
      if out.isEmpty then
        if maxRows = 0 then
          Except.ok (false, { st with currentDistinctRows := rest }, [])
        else
          match prepareNextSpillPartitionOutputM
              { st with currentDistinctRows := [], distinctParts := p :: rest2 } with
          | Except.error e => Except.error e
          | Except.ok (false, st2) => Except.ok (false, st2, [])
          | Except.ok (true, st2) =>
            mergeNextWithoutAggregatesFullM maxRows rest2 st2
      else
        Except.ok (true, { st with currentDistinctRows := rest }, out)

/-- The loop of GroupingSet::mergeNextWithAggregates (lines 1153-1194) over
one stream: runs of equal keys are merged into one scratch row each
(initializeRow starts the accumulator at initA, updateRow folds the external
single-group intermediate merge updA over the spilled payloads); at a run
boundary the call returns once the scratch row count reaches maxOutputRows
(the allocatedBytes budget is external accounting and abstracted away, like
listRows); an exhausted stream extracts whatever accumulated, and an
exhausted stream with nothing accumulated asks the caller to advance the
partition. -/
def mergeAggLoop (updA : Nat → Nat → Nat) (initA maxRows : Nat) :
    List AggSpillRow → List (Nat × Nat) → Nat →
    Bool × List (Nat × Nat) × List AggSpillRow
  | [], scratch, _ =>
    if scratch.isEmpty then (false, scratch, [])
    else (true, scratch, [])
  | [r], scratch, acc =>
    (true, scratch ++ [(r.key, updA acc r.payload)], [])
  | r :: r2 :: rest, scratch, acc =>
    let acc2 := updA acc r.payload
    if r2.key = r.key then
      mergeAggLoop updA initA maxRows (r2 :: rest) scratch acc2
    else
      let scratch2 := scratch ++ [(r.key, acc2)]
      if scratch2.length ≥ maxRows then (true, scratch2, r2 :: rest)
      else mergeAggLoop updA initA maxRows (r2 :: rest) scratch2 initA

/-- GroupingSet::mergeNextWithAggregates (lines 1153-1194) for one call
across partitions, in the same shape as the distinct drain: an exhausted
stream with accumulated rows extracts them; an exhausted stream with nothing
accumulated advances to the next partition and continues. -/
def mergeNextWithAggregatesFullM {G : Type} (updA : Nat → Nat → Nat)
    (initA maxRows : Nat) :
    List AggPartitionM → OutputStateM G →
    Except String (Bool × OutputStateM G × List (Nat × Nat))
  | [], st =>
    match mergeAggLoop updA initA maxRows st.currentAggRows [] initA with
    | (emitted, rows, rest) =>
      if emitted then
        Except.ok (true, { st with currentAggRows := rest }, rows)
      else
        match prepareNextSpillPartitionOutputM
            { st with currentAggRows := [], aggParts := [] } with
        | Except.error e => Except.error e
        | Except.ok (_, st2) =>
          -- prepareNext on an empty partition set can only report
          -- exhaustion of the partition set
          Except.ok (false, st2, [])
  | p :: rest2, st =>
    match mergeAggLoop updA initA maxRows st.currentAggRows [] initA with
    | (emitted, rows, rest) =>
      if emitted then
        Except.ok (true, { st with currentAggRows := rest }, rows)
      else
        match prepareNextSpillPartitionOutputM
            { st with currentAggRows := [], aggParts := p :: rest2 } with
        | Except.error e => Except.error e
        | Except.ok (false, st2) => Except.ok (false, st2, [])
        | Except.ok (true, st2) =>
          mergeNextWithAggregatesFullM updA initA maxRows rest2 st2

/-- GroupingSet::mergeNext (lines 1142-1151): dispatches to the distinct-only
or the aggregate merge drain. -/
def mergeNextFullM {G : Type} (updA : Nat → Nat → Nat) (initA maxRows : Nat)
    (st : OutputStateM G) :
    Except String (Bool × OutputStateM G × GetOutputRowsM G) :=
  if st.isDistinctFlag then
    match mergeNextWithoutAggregatesFullM maxRows st.distinctParts st with
    | Except.error e => Except.error e
    | Except.ok (more, st2, rows) =>
      Except.ok (more, st2, GetOutputRowsM.distinctRows rows)
  else
    match mergeNextWithAggregatesFullM updA initA maxRows st.aggParts st with
    | Except.error e => Except.error e
    | Except.ok (more, st2, rows) =>
      Except.ok (more, st2, GetOutputRowsM.aggRows rows)

/-- GroupingSet::getOutputWithSpill (lines 1077-1125): on the first call
(outputSpillPartition_ still -1) asserts mergeRows_ is null, builds the merge
row container unless distinct-only (lines 1085-1104), asserts the table is
empty and clears it (lines 1105-1106), asserts merge_ is null (line 1108),
finalizes the active spiller into the partition set with empty partitions
pruned (lines 1109-1116, materialized in the state), and selects the first
partition or reports exhaustion; on later calls it asserts merge_ is non
null (line 1123) and continues the merge.  The no-rows return value carries
the mode's empty row list. -/
def getOutputWithSpillM {G : Type} (updA : Nat → Nat → Nat)
    (initA maxRows : Nat) (st : OutputStateM G) :
    Except String (Bool × OutputStateM G × GetOutputRowsM G) :=
  if st.outputSpillPartition = -1 then
    if st.mergeRowsExists then
      Except.error "getOutputWithSpill: mergeRows_ is not null"
    else
      let st1 := { st with mergeRowsExists := !st.isDistinctFlag }
      if ¬ st1.tableRows.isEmpty then
        Except.error "getOutputWithSpill: table still holds rows"
      else if st1.mergeExists then
        Except.error "getOutputWithSpill: merge_ is not null"
      else
        match prepareNextSpillPartitionOutputM st1 with
        | Except.error e => Except.error e
        | Except.ok (false, st2) =>
          Except.ok (false, st2,
            if st2.isDistinctFlag then GetOutputRowsM.distinctRows []
            else GetOutputRowsM.aggRows [])
        | Except.ok (true, st2) => mergeNextFullM updA initA maxRows st2
  else
    if ¬ st.mergeExists then
      Except.error "getOutputWithSpill: merge_ is null"
    else mergeNextFullM updA initA maxRows st

/-- GroupingSet::getOutput (lines 736-771): dispatches to the global path,
the default global grouping set path, the spill recovery path when any spill
has occurred, and otherwise (asserting the grouping set is not distinct-only,
line 754) drains the in-memory table through listRows, clearing the table
once the cursor yields no group.  The external aggregate merge of the spill
path is the oracle pair (updA, initA). -/
def getOutputM {G : Type} (updA : Nat → Nat → Nat) (initA : Nat)
    (st : OutputStateM G) (maxRows : Nat) (it : RowContainerIteratorM) :
    Except String
      (Bool × OutputStateM G × RowContainerIteratorM × GetOutputRowsM G) :=
  if st.globalMode then
    Except.ok ((getGlobalAggregationOutputM st.globalRow it).1, st,
      (getGlobalAggregationOutputM st.globalRow it).2.1,
      GetOutputRowsM.cursorRows (getGlobalAggregationOutputM st.globalRow it).2.2)
  else if st.defaultGGSMode then
    Except.ok ((getDefaultGlobalGroupingSetOutputM st.globalRow st.ggsRows it).1,
      st, (getDefaultGlobalGroupingSetOutputM st.globalRow st.ggsRows it).2.1,
      GetOutputRowsM.cursorRows
        (getDefaultGlobalGroupingSetOutputM st.globalRow st.ggsRows it).2.2)
  else if st.hasSpilledFlag then
    match getOutputWithSpillM updA initA maxRows st with
    | Except.error e => Except.error e
    | Except.ok (more, st2, rows) => Except.ok (more, st2, it, rows)
  else if st.isDistinctFlag then
    Except.error "getOutput: distinct-only grouping set without spilling"
  else
    let n := if st.tableExists then listRowsM st.tableRows it.rowNumber maxRows
      else 0
    if n = 0 then
      Except.ok (false, { st with tableRows := [] }, it,
        GetOutputRowsM.cursorRows [])
    else
      Except.ok (true, st, { it with rowNumber := it.rowNumber + n },
        GetOutputRowsM.cursorRows ((st.tableRows.drop it.rowNumber).take n))

/-- Exhaustion on the cursor driven paths: no more output rows exist for the
given state and iterator. -/
def noMoreRowsM {G : Type} (st : OutputStateM G)
    (it : RowContainerIteratorM) : Prop :=
  if st.globalMode ∨ st.defaultGGSMode then it.allocationIndex ≠ 0
  else ¬ st.tableExists ∨ st.tableRows.length ≤ it.rowNumber

/-! ### Default global grouping set output content
(GroupingSet::getDefaultGlobalGroupingSetOutput) -/

/-- One output cell of the grouping set synthesis: a null, a group id value,
a value copied from the named column of the computed global aggregate row, or
whatever the recycled result vector previously held. -/
inductive CellM where
  | null : CellM
  | groupId (v : Nat) : CellM
  | fromGlobalRow (col : Nat) : CellM
  | prior (col row : Nat) : CellM
deriving DecidableEq, Repr

/-- firstAggregateCol (lines 659-662): the minimum aggregate output column,
seeded with the result width. -/
def firstAggregateCol (numCols : Nat) (aggOutputs : List Nat) : Nat :=
  aggOutputs.foldl min numCols

/-- The grouping key column loop (lines 664-678): every column before the
first aggregate column becomes null in each grouping set row, except the
group id column which receives that row's grouping set id. -/
def writeGroupingKeyColumns (numCols : Nat) (aggOutputs : List Nat)
    (groupIdCh : Nat) (ids : List Nat) (m : Nat → Nat → CellM) :
    Nat → Nat → CellM :=
  fun c j =>
    if c < firstAggregateCol numCols aggOutputs ∧ j < ids.length then
      if c = groupIdCh then CellM.groupId (ids.getD j 0) else CellM.null
    else m c j

/-- The aggregate column loop (lines 682-689): each aggregate output column
is overwritten, in every grouping set row, with the value of the same column
of the single computed global aggregate row. -/
def writeAggregateColumns (aggOutputs : List Nat) (numRows : Nat)
    (m : Nat → Nat → CellM) : Nat → Nat → CellM :=
  aggOutputs.foldl
    (fun acc out => fun c j =>
      if c = out ∧ j < numRows then CellM.fromGlobalRow out else acc c j) m

/-- GroupingSet::getDefaultGlobalGroupingSetOutput content (lines 635-692):
starting from whatever the recycled result vector held, fill the grouping key
columns and then copy the aggregate columns from the global aggregate row;
the result is resized to one row per declared global grouping set id. -/
def defaultGGSOutput (numCols : Nat) (aggOutputs : List Nat) (groupIdCh : Nat)
    (ids : List Nat) (m : Nat → Nat → CellM) : Nat → Nat → CellM :=
  writeAggregateColumns aggOutputs ids.length
    (writeGroupingKeyColumns numCols aggOutputs groupIdCh ids m)

/-- A fresh iterator: allocationIndex 0, cursor at row 0. -/
def c2ExIter : RowContainerIteratorM :=
  { allocationIndex := 0, rowNumber := 0 }

/-- A concrete external aggregate-merge oracle for the C2 spill recovery
examples (the payloads are summed). -/
def c2ExUpd : Nat → Nat → Nat := fun a b => a + b

/-- A distinct-only grouping set about to start spill recovery: spilling has
occurred, no partition selected yet, mergeRows_ and merge_ null, and one
finalized non-empty partition (number 0, one pre-spill distinct file, a
single spilled row with key 5 from stream 2). -/
def c2SpillSt0 : OutputStateM Nat :=
  { globalMode := false, defaultGGSMode := false, globalRow := 0,
    ggsRows := [], tableExists := true, tableRows := [],
    hasSpilledFlag := true, isDistinctFlag := true, mergeRowsExists := false,
    mergeExists := false, outputSpillPartition := -1, currentT := 0,
    currentDistinctRows := [], currentAggRows := [],
    distinctParts := [⟨0, 1, [⟨5, 2⟩]⟩],
    aggParts := [] }

/-- The state after the first recovery call emitted the key-5 row: partition
0 selected, its stream drained, no partitions left, merge_ still open. -/
def c2SpillSt1 : OutputStateM Nat :=
  { c2SpillSt0 with
    outputSpillPartition := 0
    currentT := 1
    currentDistinctRows := []
    distinctParts := []
    mergeExists := true }

/-- The state after the second recovery call returned false: the merge reader
was dropped while outputSpillPartition_ stays at 0. -/
def c2SpillSt2 : OutputStateM Nat :=
  { c2SpillSt1 with mergeExists := false }

/-! ### Spill state machine (GroupingSet::spill, noMoreInput, hasSpilled) -/

/-- The spill related state of a GroupingSet: whether noMoreInput was called,
the deferred partial run (carried as its row count), whether the input and
output spillers exist, whether table_ is non null, the number of distinct
groups held in memory, and the total rows persisted to spill storage. -/
structure GSStateM where
  noMoreInputFlag : Bool
  remainingRows : Option Nat
  inputSpiller : Bool
  outputSpiller : Bool
  tableExists : Bool
  numDistinct : Nat
  spilledRows : Nat
deriving DecidableEq, Repr

/-- GroupingSet::hasSpilled (GroupingSet.cpp lines 223-229): true when either
spiller exists, asserting the two are never simultaneously present. -/
def hasSpilledM (s : GSStateM) : Except String Bool :=
  if s.inputSpiller then
    if s.outputSpiller then Except.error "hasSpilled: outputSpiller is set"
    else Except.ok true
  else Except.ok s.outputSpiller

/-- GroupingSet::spill() (lines 1005-1053): no-op without a table or with an
empty one; otherwise asserts no output spiller exists, lazily creates the
input spiller, writes all in-memory rows to partitioned sorted spill storage
and clears the table. -/
def spillM (s : GSStateM) : Except String GSStateM :=
  if ¬ s.tableExists ∨ s.numDistinct = 0 then Except.ok s
  else if s.outputSpiller then Except.error "spill: outputSpiller is set"
  else Except.ok { s with
    inputSpiller := true,
    spilledRows := s.spilledRows + s.numDistinct,
    numDistinct := 0 }

/-- GroupingSet::spill(rowIterator) (lines 1055-1075): asserts no spill has
happened yet, is a no-op without a table, and otherwise creates the output
spiller, writes the not yet extracted rows and clears the table. -/
def spillOutputM (s : GSStateM) : Except String GSStateM :=
  match hasSpilledM s with
  | Except.error e => Except.error e
  | Except.ok hs =>
    if hs then Except.error "spill(rowIterator): hasSpilled"
    else if ¬ s.tableExists then Except.ok s
    else Except.ok { s with
      outputSpiller := true,
      spilledRows := s.spilledRows + s.numDistinct,
      numDistinct := 0 }

/-- GroupingSet::addRemainingInput (lines 314-322): pushes the deferred rows
through addInputForActiveRows and clears remainingInput_.  The grouping store
is external, so the distinct-group count after inserting r deferred rows into
a table holding n groups is supplied by the oracle ins. -/
def addRemainingInputM (ins : Nat → Nat → Nat) (s : GSStateM) : GSStateM :=
  match s.remainingRows with
  | none => s
  | some r => { s with
      remainingRows := none,
      tableExists := true,
      numDistinct := ins s.numDistinct r }

/-- Observable actions of noMoreInput, in execution order. -/
inductive NoMoreInputEvent where
  | flushedRemaining : NoMoreInputEvent
  | spilled : NoMoreInputEvent
  | reservedOutputHeadroom : NoMoreInputEvent
deriving DecidableEq, Repr

/-- GroupingSet::noMoreInput (lines 205-221): flushes the deferred partial
run if any, asserts no output spiller exists, spills the remaining in-memory
state if and only if input spilling was already triggered on this grouping
set, then reserves memory headroom for output production (ensureOutputFits,
which does not touch the grouping state). -/
def noMoreInputM (ins : Nat → Nat → Nat) (s : GSStateM) :
    Except String (GSStateM × List NoMoreInputEvent) :=
  let s1 := { s with noMoreInputFlag := true }
  let flushed := s1.remainingRows.isSome
  let s2 := addRemainingInputM ins s1
  if s2.outputSpiller then
    Except.error "noMoreInput: outputSpiller is set"
  else
    match (if s2.inputSpiller then spillM s2 else Except.ok s2) with
    | Except.error e => Except.error e
    | Except.ok s3 =>
      Except.ok (s3,
        (if flushed then [NoMoreInputEvent.flushedRemaining] else []) ++
        (if s2.inputSpiller then [NoMoreInputEvent.spilled] else []) ++
        [NoMoreInputEvent.reservedOutputHeadroom])

/-- The state of a freshly constructed GroupingSet: no spillers, no table,
nothing deferred. -/
def initialGSState : GSStateM :=
  { noMoreInputFlag := false, remainingRows := none, inputSpiller := false,
    outputSpiller := false, tableExists := false, numDistinct := 0,
    spilledRows := 0 }

/-- The effect of GroupingSet::addInput (lines 172-203) on the spill state:
the table is created on demand and grows through the external hash table to
some group count n, a trailing partial run may be deferred; the spillers are
never touched. -/
def addInputEffectM (s : GSStateM) (n : Nat) (rr : Option Nat) : GSStateM :=
  { s with tableExists := true, numDistinct := n, remainingRows := rr }

/-- One externally driven transition of a GroupingSet: addInput grows the
store through the external hash table (arbitrary resulting group count and
deferred run), noMoreInput, a reclaim driven input spill, and an output spill
from a caller supplied iterator position.  A failed assertion produces no
successor state. -/
inductive GSStep : GSStateM → GSStateM → Prop where
  | addInput (s : GSStateM) (n : Nat) (rr : Option Nat) :
      GSStep s (addInputEffectM s n rr)
  | noMoreInput (ins : Nat → Nat → Nat) (s s2 : GSStateM)
      (evs : List NoMoreInputEvent)
      (h : noMoreInputM ins s = Except.ok (s2, evs)) : GSStep s s2
  | spillInput (s s2 : GSStateM) (h : spillM s = Except.ok s2) : GSStep s s2
  | spillOutput (s s2 : GSStateM) (h : spillOutputM s = Except.ok s2) :
      GSStep s s2

/-- States reachable from construction through successful transitions. -/
inductive GSReachable : GSStateM → Prop where
  | init : GSReachable initialGSState
  | step (s s2 : GSStateM) (hr : GSReachable s) (hs : GSStep s s2) :
      GSReachable s2

/-- A reachable state with a live table of five groups. -/
def c7State1 : GSStateM :=
  { initialGSState with tableExists := true, numDistinct := 5 }

/-- The state after output spilling c7State1: the output spiller exists and
the table was cleared. -/
def c7State2 : GSStateM :=
  { c7State1 with outputSpiller := true, numDistinct := 0, spilledRows := 5 }

/-! ### Constructor checks (GroupingSet::GroupingSet) -/

/-- The slice of AggregateInfo consumed by the constructor checks: the sort
key list and the distinct flag. -/
structure AggregateInfoM where
  sortingKeys : List Nat
  distinct : Bool
deriving DecidableEq, Repr

/-- Modelled from the spec: SortedAggregations::create is not under src/; per
the spec an aggregate is in sorted-aggregation mode exactly when its sort key
list is non empty, and the adapter is created when any such aggregate
exists. -/
def hasSortedAggregations (aggs : List AggregateInfoM) : Bool :=
  aggs.any (fun a => !a.sortingKeys.isEmpty)

/-- The checked prefix of the GroupingSet constructor (lines 43-125):
nonReclaimableSection_ must be non null and the pool must track usage (lines
77-78), a non empty grouping-key output projection must match the key count
(lines 84-92), partial aggregation rejects sorted aggregates
(VELOX_USER_CHECK_NULL, lines 108-112) and then distinct aggregates
(VELOX_USER_CHECK, lines 114-124). -/
def groupingSetConstruct (nonReclaimableSectionSet poolTrackUsage : Bool)
    (numKeys : Nat) (projections : List Nat) (partialAgg : Bool)
    (aggs : List AggregateInfoM) : Except String Unit :=
  if ¬ nonReclaimableSectionSet then
    Except.error "nonReclaimableSection is null"
  else if ¬ poolTrackUsage then
    Except.error "pool does not track usage"
  else if ¬ projections.isEmpty ∧ projections.length ≠ numKeys then
    Except.error "groupingKeyOutputProjections size mismatch"
  else if partialAgg ∧ hasSortedAggregations aggs then
    Except.error "Partial aggregations over sorted inputs are not supported"
  else if partialAgg ∧ aggs.any (fun a => a.distinct) then
    Except.error "Partial aggregations over distinct inputs are not supported"
  else Except.ok ()

/-! ### Input memory reservation (GroupingSet::ensureInputFits) -/

/-- The inputs of one ensureInputFits call: grouping set flags, table and row
container statistics, the incoming batch, the pool counters, the spill
configuration percentages, the external size estimator and the pool
reservation oracle. -/
structure InputFitsEnv where
  partialAgg : Bool
  hasSpillConfig : Bool
  numDistinct : Nat
  freeRows : Nat
  outOfLineFreeBytes : Nat
  stringAllocatorRetainedBytes : Nat
  inputFlatBytes : Nat
  inputSize : Nat
  currentUsage : Nat
  availableReservation : Nat
  tableIncrementBytes : Nat
  sizeIncrementFn : Nat → Nat → Nat
  minSpillableReservationPct : Nat
  spillableReservationGrowthPct : Nat
  maybeReserve : Nat → Bool

/-- How a call of ensureInputFits returned; every branch is a normal return,
the function has no error path. -/
inductive InputFitsOutcome where
  | skippedPartialOrNoSpill
  | emptyTable
  | enoughExistingSlack
  | enoughReservation
  | reserved
  | warnedReservationDenied
deriving DecidableEq, Repr

/-- The variable length bytes in use (lines 876-877). -/
def outOfLineBytesOf (e : InputFitsEnv) : Nat :=
  e.stringAllocatorRetainedBytes - e.outOfLineFreeBytes

/-- incrementBytes (lines 891-894): the row container growth for the batch
(with double the flat size as variable length cap when any is in use) plus
the hash table growth. -/
def incrementBytesOf (e : InputFitsEnv) : Nat :=
  e.sizeIncrementFn e.inputSize
    (if outOfLineBytesOf e ≠ 0 then e.inputFlatBytes * 2 else 0) +
  e.tableIncrementBytes

/-- targetIncrementBytes (lines 922-924): the larger of twice the estimated
increment and the configured percentage of current usage. -/
def targetIncrementBytesOf (e : InputFitsEnv) : Nat :=
  max (incrementBytesOf e * 2)
    (e.currentUsage * e.spillableReservationGrowthPct / 100)

/-- GroupingSet::ensureInputFits (lines 861-935): no-op for partial
aggregation or without a spill config, nothing to do for an empty table;
otherwise either finds enough slack or reservation headroom, or asks the pool
to grow the reservation by targetIncrementBytes and, if that is denied, logs
a warning and returns normally (the test-only spill hook of lines 880-885 is
omitted). -/
def ensureInputFitsM (e : InputFitsEnv) : InputFitsOutcome :=
  if e.partialAgg ∨ ¬ e.hasSpillConfig then
    InputFitsOutcome.skippedPartialOrNoSpill
  else if e.numDistinct = 0 then InputFitsOutcome.emptyTable
  else if e.availableReservation ≥
        e.currentUsage * e.minSpillableReservationPct / 100 ∧
      e.tableIncrementBytes = 0 ∧ e.freeRows > e.inputSize ∧
      (outOfLineBytesOf e = 0 ∨
        e.outOfLineFreeBytes ≥ e.inputFlatBytes * 2) then
    InputFitsOutcome.enoughExistingSlack
  else if e.availableReservation ≥
        e.currentUsage * e.minSpillableReservationPct / 100 ∧
      e.availableReservation > 2 * incrementBytesOf e then
    InputFitsOutcome.enoughReservation
  else if e.maybeReserve (targetIncrementBytesOf e) then
    InputFitsOutcome.reserved
  else InputFitsOutcome.warnedReservationDenied

/-! ### Pass-through after abandoning partial aggregation
(GroupingSet::toIntermediate) -/

/-- The shape of a toIntermediate result: the input batch forwarded untouched,
or a batch converted per aggregate together with the number of scratch rows
the conversion allocated. -/
inductive ToIntermediateResultM (B : Type) where
  | passthrough (b : B) : ToIntermediateResultM B
  | converted (scratchRowsAllocated : Nat) : ToIntermediateResultM B
deriving DecidableEq, Repr

/-- GroupingSet::toIntermediate (lines 1428-1511): asserts partial
aggregation was abandoned; with intermediate-shape input (isRawInput_ false)
the result is set to the input batch itself and the function returns at once
(lines 1433-1436), with no per-aggregate transformation, masking or scratch
row allocation; raw input runs the per-aggregate conversion, allocating one
scratch row per input row unless every aggregate supports a native
to-intermediate shortcut (abandonPartialAggregation, lines 1388-1410). -/
def toIntermediateM {B : Type} (abandonedPartialAggregation rawInput
    allSupportToIntermediate : Bool) (numRows : Nat) (input : B) :
    Except String (ToIntermediateResultM B) :=
  if ¬ abandonedPartialAggregation then
    Except.error "toIntermediate: abandonedPartialAggregation_ check failed"
  else if ¬ rawInput then Except.ok (ToIntermediateResultM.passthrough input)
  else Except.ok (ToIntermediateResultM.converted
    (if allSupportToIntermediate then 0 else numRows))

/-- A concrete spill state used as the C5 witness input: a deferred run of
three rows, input spilling already triggered, four groups in memory. -/
def c5ExState : GSStateM :=
  { noMoreInputFlag := false, remainingRows := some 3, inputSpiller := true,
    outputSpiller := false, tableExists := true, numDistinct := 4,
    spilledRows := 7 }

/-- A concrete insertion oracle: every deferred row creates a new group. -/
def c5ExIns : Nat → Nat → Nat := fun n r => n + r

/-- Concrete aggregates used as the C6 witness input: one sorted aggregate
and one distinct aggregate. -/
def c6ExAggs : List AggregateInfoM :=
  [{ sortingKeys := [1], distinct := false },
   { sortingKeys := [], distinct := true }]

/-- A concrete environment used as the C9 witness input: a final aggregation
with a spill config whose pool denies every reservation request. -/
def c9ExEnv : InputFitsEnv :=
  { partialAgg := false, hasSpillConfig := true, numDistinct := 10,
    freeRows := 0, outOfLineFreeBytes := 0,
    stringAllocatorRetainedBytes := 1000, inputFlatBytes := 100,
    inputSize := 50, currentUsage := 10000, availableReservation := 0,
    tableIncrementBytes := 64, sizeIncrementFn := fun n b => n * 8 + b,
    minSpillableReservationPct := 5, spillableReservationGrowthPct := 10,
    maybeReserve := fun _ => false }

end VeloxGS

namespace VeloxGS

theorem le_roundUp (v f : Nat) (hf : 1 ≤ f) : v ≤ roundUp v f := by
  have hdm := Nat.div_add_mod (v + f - 1) f
  have hmod : (v + f - 1) % f < f := Nat.mod_lt _ hf
  unfold roundUp
  have h3 : v + (v + f - 1) % f ≤ (v + f - 1) / f * f + (v + f - 1) % f := by
    have : (v + f - 1) / f * f + (v + f - 1) % f = v + f - 1 := by
      rw [Nat.mul_comm]; exact hdm
    rw [this]; omega
  exact Nat.le_of_add_le_add_right h3

theorem roundUp_mod (v f : Nat) : roundUp v f % f = 0 := by
  unfold roundUp
  exact Nat.mul_mod_left _ f

/-- Invariant of the placement fold: placements stay below the running offset,
above the fixed base, aligned, and ordered without overlap. -/
theorem layout_foldl_inv (accs : List Accumulator) (st : LayoutState) (base : Nat)
    (halign : ∀ a ∈ accs, 1 ≤ a.alignment)
    (hend : ∀ p ∈ st.placements, p.1 + p.2.1 ≤ st.offset)
    (hbase : ∀ p ∈ st.placements, base ≤ p.1)
    (hbo : base ≤ st.offset)
    (hdvd : ∀ p ∈ st.placements, p.1 % p.2.2 = 0)
    (hpw : st.placements.Pairwise (fun p q => p.1 + p.2.1 ≤ q.1)) :
    (∀ p ∈ (accs.foldl placeAccumulator st).placements,
        p.1 + p.2.1 ≤ (accs.foldl placeAccumulator st).offset) ∧
    (∀ p ∈ (accs.foldl placeAccumulator st).placements, base ≤ p.1) ∧
    base ≤ (accs.foldl placeAccumulator st).offset ∧
    (∀ p ∈ (accs.foldl placeAccumulator st).placements, p.1 % p.2.2 = 0) ∧
    (accs.foldl placeAccumulator st).placements.Pairwise
      (fun p q => p.1 + p.2.1 ≤ q.1) := by
  induction accs generalizing st with
  | nil => exact ⟨hend, hbase, hbo, hdvd, hpw⟩
  | cons a rest ih =>
    have ha : 1 ≤ a.alignment := halign a (by simp)
    have hup : st.offset ≤ roundUp st.offset a.alignment := le_roundUp _ _ ha
    simp only [List.foldl_cons]
    refine ih (placeAccumulator st a) (fun x hx => halign x (by simp [hx])) ?_ ?_ ?_ ?_ ?_
    · intro p hp
      simp only [placeAccumulator, List.mem_append, List.mem_singleton] at hp
      rcases hp with hp | hp
      · have := hend p hp; simp only [placeAccumulator]; omega
      · subst hp; simp only [placeAccumulator]; omega
    · intro p hp
      simp only [placeAccumulator, List.mem_append, List.mem_singleton] at hp
      rcases hp with hp | hp
      · exact hbase p hp
      · subst hp; simpa using le_trans hbo hup
    · simp only [placeAccumulator]; omega
    · intro p hp
      simp only [placeAccumulator, List.mem_append, List.mem_singleton] at hp
      rcases hp with hp | hp
      · exact hdvd p hp
      · subst hp; simpa using roundUp_mod st.offset a.alignment
    · simp only [placeAccumulator]
      refine List.pairwise_append.mpr ⟨hpw, List.pairwise_singleton _ _, ?_⟩
      intro p hp q hq
      simp only [List.mem_singleton] at hq
      subst hq
      exact le_trans (hend p hp) hup

/-- The alignment component of the fold is the fold of combineAlignments. -/
theorem layout_foldl_alignment (accs : List Accumulator) (st : LayoutState) :
    (accs.foldl placeAccumulator st).alignment =
      accs.foldl (fun m a => max a.alignment m) st.alignment := by
  induction accs generalizing st with
  | nil => rfl
  | cons a rest ih => simp only [List.foldl_cons]; exact ih (placeAccumulator st a)

/-- The placement count equals the accumulator count. -/
theorem layout_foldl_length (accs : List Accumulator) (st : LayoutState) :
    (accs.foldl placeAccumulator st).placements.length =
      st.placements.length + accs.length := by
  induction accs generalizing st with
  | nil => simp
  | cons a rest ih =>
    simp only [List.foldl_cons]
    rw [ih (placeAccumulator st a)]
    simp only [placeAccumulator, List.length_append, List.length_cons,
      List.length_nil]
    omega

/-- Folding max over a list yields an upper bound that is either the seed or an
element of the list. -/
theorem foldl_max_spec (l : List Nat) (init : Nat) :
    (∀ x ∈ l, x ≤ l.foldl (fun m a => max a m) init) ∧
    init ≤ l.foldl (fun m a => max a m) init ∧
    (l.foldl (fun m a => max a m) init = init ∨
      l.foldl (fun m a => max a m) init ∈ l) := by
  induction l generalizing init with
  | nil => simp
  | cons a rest ih =>
    simp only [List.foldl_cons]
    obtain ⟨h1, h2, h3⟩ := ih (max a init)
    refine ⟨?_, ?_, ?_⟩
    · intro x hx
      rcases List.mem_cons.mp hx with hx | hx
      · rw [hx]; exact le_trans (le_max_left a init) h2
      · exact h1 x hx
    · exact le_trans (le_max_right a init) h2
    · rcases h3 with h3 | h3
      · rcases Nat.le_total a init with h | h
        · left; rw [h3]; exact max_eq_right h
        · right; rw [h3, max_eq_left h]; exact List.mem_cons_self a rest
      · right; exact List.mem_cons_of_mem a h3

/-- C8: the global-row accumulator layout computed by
initializeGlobalAggregation rounds the running offset up to each accumulator's
alignment before placing it (every placed offset is a multiple of its
accumulator's alignment), assigns byte ranges that never overlap each other,
the flag bytes, or the 4-byte row-size field, and the overall row alignment is
the maximum alignment required by any accumulator (including the sorted and
distinct pseudo-accumulators). -/
theorem c8_globalRowLayout_sound
    (aggs : List Accumulator) (sorted : Option Accumulator)
    (distincts : List (Option Accumulator))
    (halign : ∀ a ∈ globalAccumulators aggs sorted distincts, 1 ≤ a.alignment) :
    (globalRowLayout aggs sorted distincts).placements.length =
      (globalAccumulators aggs sorted distincts).length ∧
    (∀ p ∈ (globalRowLayout aggs sorted distincts).placements,
      p.1 % p.2.2 = 0) ∧
    (∀ p ∈ (globalRowLayout aggs sorted distincts).placements,
      globalRowSizeOffset aggs sorted distincts + 4 ≤ p.1) ∧
    (globalRowLayout aggs sorted distincts).placements.Pairwise
      (fun p q => p.1 + p.2.1 ≤ q.1) ∧
    (∀ a ∈ globalAccumulators aggs sorted distincts,
      a.alignment ≤ (globalRowLayout aggs sorted distincts).alignment) ∧
    ((globalRowLayout aggs sorted distincts).alignment = 1 ∨
      (globalRowLayout aggs sorted distincts).alignment ∈
        (globalAccumulators aggs sorted distincts).map Accumulator.alignment) := by
  set accs := globalAccumulators aggs sorted distincts with haccs
  set st0 : LayoutState :=
    { offset := globalRowSizeOffset aggs sorted distincts + 4
      accumulatorFlagsOffset := 0
      alignment := 1
      placements := [] } with hst0
  have hlayout : globalRowLayout aggs sorted distincts = accs.foldl placeAccumulator st0 := rfl
  obtain ⟨inv1, inv2, inv3, inv4, inv5⟩ :=
    layout_foldl_inv accs st0 (globalRowSizeOffset aggs sorted distincts + 4)
      halign (by simp [hst0]) (by simp [hst0]) (by simp [hst0]) (by simp [hst0])
      (by simp [hst0])
  have hlen := layout_foldl_length accs st0
  have halgn := layout_foldl_alignment accs st0
  have hmapfold :
      accs.foldl (fun m a => max a.alignment m) st0.alignment =
        (accs.map Accumulator.alignment).foldl (fun m a => max a m) 1 := by
    rw [List.foldl_map]
  obtain ⟨hmax1, _, hmax3⟩ := foldl_max_spec (accs.map Accumulator.alignment) 1
  refine ⟨?_, ?_, ?_, ?_, ?_, ?_⟩
  · rw [hlayout, hlen]; simp [hst0]
  · rw [hlayout]; exact inv4
  · rw [hlayout]; exact inv2
  · rw [hlayout]; exact inv5
  · intro a ha
    rw [hlayout, halgn, hmapfold]
    exact hmax1 a.alignment (List.mem_map_of_mem Accumulator.alignment ha)
  · rw [hlayout, halgn, hmapfold]
    exact hmax3

/-- Witness for C8 at a concrete accumulator list. -/
theorem c8_globalRowLayout_sound_witness :
    (∀ a ∈ globalAccumulators [⟨8, 8⟩, ⟨1, 1⟩] (some ⟨16, 8⟩)
        [some ⟨8, 8⟩, none], 1 ≤ a.alignment) ∧
    ((globalRowLayout [⟨8, 8⟩, ⟨1, 1⟩] (some ⟨16, 8⟩)
        [some ⟨8, 8⟩, none]).placements.length =
      (globalAccumulators [⟨8, 8⟩, ⟨1, 1⟩] (some ⟨16, 8⟩)
        [some ⟨8, 8⟩, none]).length ∧
    (∀ p ∈ (globalRowLayout [⟨8, 8⟩, ⟨1, 1⟩] (some ⟨16, 8⟩)
        [some ⟨8, 8⟩, none]).placements, p.1 % p.2.2 = 0) ∧
    (∀ p ∈ (globalRowLayout [⟨8, 8⟩, ⟨1, 1⟩] (some ⟨16, 8⟩)
        [some ⟨8, 8⟩, none]).placements,
      globalRowSizeOffset [⟨8, 8⟩, ⟨1, 1⟩] (some ⟨16, 8⟩)
        [some ⟨8, 8⟩, none] + 4 ≤ p.1) ∧
    (globalRowLayout [⟨8, 8⟩, ⟨1, 1⟩] (some ⟨16, 8⟩)
        [some ⟨8, 8⟩, none]).placements.Pairwise
      (fun p q => p.1 + p.2.1 ≤ q.1) ∧
    (∀ a ∈ globalAccumulators [⟨8, 8⟩, ⟨1, 1⟩] (some ⟨16, 8⟩)
        [some ⟨8, 8⟩, none],
      a.alignment ≤ (globalRowLayout [⟨8, 8⟩, ⟨1, 1⟩] (some ⟨16, 8⟩)
        [some ⟨8, 8⟩, none]).alignment) ∧
    ((globalRowLayout [⟨8, 8⟩, ⟨1, 1⟩] (some ⟨16, 8⟩)
        [some ⟨8, 8⟩, none]).alignment = 1 ∨
      (globalRowLayout [⟨8, 8⟩, ⟨1, 1⟩] (some ⟨16, 8⟩)
        [some ⟨8, 8⟩, none]).alignment ∈
        (globalAccumulators [⟨8, 8⟩, ⟨1, 1⟩] (some ⟨16, 8⟩)
          [some ⟨8, 8⟩, none]).map Accumulator.alignment)) :=
  ⟨by decide, c8_globalRowLayout_sound _ _ _ (by decide)⟩

theorem boundaryScan_some (ks : List Nat) (i b : Nat)
    (h : boundaryScan ks i = some b) :
    1 ≤ b ∧ b ≤ i + 1 ∧ ks.getD (b - 1) 0 ≠ ks.getD b 0 ∧
    ∀ j, b ≤ j → j ≤ i → ks.getD j 0 = ks.getD (j + 1) 0 := by
  induction i with
  | zero =>
    unfold boundaryScan at h
    split at h
    · exact absurd h (by simp)
    · rename_i hne
      have hb : b = 1 := by injection h with h; omega
      subst hb
      exact ⟨le_refl 1, le_refl 1, by simpa using hne, fun j h1 h2 => by omega⟩
  | succ i ih =>
    unfold boundaryScan at h
    split at h
    · rename_i heq
      obtain ⟨g1, g2, g3, g4⟩ := ih h
      refine ⟨g1, by omega, g3, fun j h1 h2 => ?_⟩
      rcases Nat.lt_or_ge j (i + 1) with hj | hj
      · exact g4 j h1 (by omega)
      · have : j = i + 1 := by omega
        rw [this]; exact heq
    · rename_i hne
      have hb : b = i + 2 := by injection h with h; omega
      subst hb
      exact ⟨by omega, by omega, by simpa using hne, fun j h1 h2 => by omega⟩

/-- C3: in keyed mode with a non-empty pre-grouped key list, when a run
boundary exists addInput processes exactly the rows before the start of the
last run of equal adjacent keys and defers the trailing partial run, storing
its first row index as firstRemainingRow_: the deferred suffix is a single run
of equal adjacent keys and the row just before it has a different key. -/
theorem c3_addInput_preGrouped_split (ks : List Nat) (b : Nat)
    (hb : (addInputSplit ks).2 = some b) :
    (addInputSplit ks).1 = b ∧
    1 ≤ b ∧ b < ks.length ∧
    ks.getD (b - 1) 0 ≠ ks.getD b 0 ∧
    ∀ j, b ≤ j → j + 1 < ks.length → ks.getD j 0 = ks.getD (j + 1) 0 := by
  unfold addInputSplit at hb ⊢
  split at hb
  · rename_i hlen
    rcases hscan : boundaryScan ks (ks.length - 2) with _ | b2
    · rw [hscan] at hb; exact absurd hb (by simp)
    · rw [hscan] at hb
      simp only at hb
      have hbb : b2 = b := by injection hb
      subst hbb
      obtain ⟨g1, g2, g3, g4⟩ := boundaryScan_some ks (ks.length - 2) b2 hscan
      refine ⟨?_, g1, by omega, g3, fun j h1 h2 => g4 j h1 (by omega)⟩
      simp [hlen]
  · exact absurd hb (by simp)

/-- Witness for C3 on the concrete batch with keys [1, 1, 2, 2, 2]: the
complete prefix of two rows is processed and the trailing run starting at row
2 is deferred. -/
theorem c3_addInput_preGrouped_split_witness :
    (addInputSplit [1, 1, 2, 2, 2]).2 = some 2 ∧
    ((addInputSplit [1, 1, 2, 2, 2]).1 = 2 ∧
    1 ≤ 2 ∧ 2 < [1, 1, 2, 2, 2].length ∧
    [1, 1, 2, 2, 2].getD (2 - 1) 0 ≠ [1, 1, 2, 2, 2].getD 2 0 ∧
    ∀ j, 2 ≤ j → j + 1 < [1, 1, 2, 2, 2].length →
      [1, 1, 2, 2, 2].getD j 0 = [1, 1, 2, 2, 2].getD (j + 1) 0) :=
  ⟨by decide, c3_addInput_preGrouped_split [1, 1, 2, 2, 2] 2 (by decide)⟩


/-- The run-local newDistinct accumulation is a Boolean conjunction with the
pre-spill distinct-stream test. -/
theorem nd_step (t i : Nat) (nd : Bool) :
    (if i < t then false else nd) = (nd && decide (t ≤ i)) := by
  rcases Nat.lt_or_ge i t with h | h
  · simp [h, Nat.not_le_of_lt h]
  · simp [Nat.not_lt_of_le h, h]

/-- Processing one full run of equal keys: the run is consumed in one piece,
it emits its last row exactly when the incoming newDistinct flag holds and no
row of the run comes from a pre-spill distinct stream, and the loop continues
on the tail with newDistinct reset to true. -/
theorem mergeLoop_run (t maxRows : Nat) (k : Nat) (i : Nat) (ids : List Nat)
    (numOut : Nat) (nd : Bool) (tail : List SpillStreamRow)
    (htail : ∀ r, tail.head? = some r → r.key ≠ k)
    (hbudget : numOut < maxRows) :
    mergeLoop t maxRows (runRows k (i :: ids) ++ tail) numOut nd =
      if nd && (i :: ids).all (fun x => decide (t ≤ x)) then
        (({ key := k, sid := (i :: ids).getLast (by simp) } : SpillStreamRow) ::
            (mergeLoop t maxRows tail (numOut + 1) true).1,
          (mergeLoop t maxRows tail (numOut + 1) true).2)
      else mergeLoop t maxRows tail numOut true := by
  induction ids generalizing i nd with
  | nil =>
    have hrun : runRows k [i] ++ tail = ⟨k, i⟩ :: tail := by simp [runRows]
    rw [hrun]
    rcases tail with _ | ⟨r2, tail2⟩
    · simp only [mergeLoop, if_pos hbudget, nd_step]
      rcases hand : nd && decide (t ≤ i) with _ | _ <;>
        simp [hand, List.getLast, mergeLoop]
    · have hr2 : r2.key ≠ k := htail r2 rfl
      simp only [mergeLoop, if_pos hbudget, nd_step]
      rw [if_neg hr2]
      rcases hand : nd && decide (t ≤ i) with _ | _ <;> simp [hand, List.getLast]
  | cons i2 ids2 ih =>
    have hrun : runRows k (i :: i2 :: ids2) ++ tail =
        ⟨k, i⟩ :: (runRows k (i2 :: ids2) ++ tail) := by simp [runRows]
    have hcons : runRows k (i2 :: ids2) ++ tail =
        ⟨k, i2⟩ :: (runRows k ids2 ++ tail) := by simp [runRows]
    rw [hrun, hcons]
    simp only [mergeLoop, if_pos hbudget, if_true]
    rw [← hcons,
      ih i2 (if (⟨k, i⟩ : SpillStreamRow).sid < t then false else nd)]
    have hand : ((if (⟨k, i⟩ : SpillStreamRow).sid < t then false else nd) &&
        (i2 :: ids2).all (fun x => decide (t ≤ x))) =
        (nd && (i :: i2 :: ids2).all (fun x => decide (t ≤ x))) := by
      rw [nd_step]
      simp [List.all_cons, Bool.and_assoc]
    rw [hand]
    have hlast : (i2 :: ids2).getLast (by simp) =
        (i :: i2 :: ids2).getLast (by simp) :=
      (List.getLast_cons (by simp)).symm
    rw [hlast]

/-- The head row of a stream of runs carries the first run's key. -/
theorem streamOfRuns_head_key (q : Nat × List Nat) (rest : List (Nat × List Nat))
    (hq : q.2 ≠ []) (r : SpillStreamRow)
    (hr : (streamOfRuns (q :: rest)).head? = some r) : r.key = q.1 := by
  obtain ⟨j, tl, hjtl⟩ := List.exists_cons_of_ne_nil hq
  have hs : streamOfRuns (q :: rest) =
      ⟨q.1, j⟩ :: (runRows q.1 tl ++ streamOfRuns rest) := by
    simp [streamOfRuns, runRows, hjtl]
  rw [hs] at hr
  simp only [List.head?_cons, Option.some_inj] at hr
  rw [← hr]

/-- Draining one partition with sufficient budget: the loop emits exactly the
expected per-run representatives and consumes the whole stream. -/
theorem mergeLoop_runsOf (t maxRows : Nat) (runs : List (Nat × List Nat))
    (numOut : Nat)
    (hne : ∀ p ∈ runs, p.2 ≠ [])
    (hadj : runs.Chain' (fun a b => a.1 ≠ b.1))
    (hbudget : numOut + runs.length ≤ maxRows) :
    mergeLoop t maxRows (streamOfRuns runs) numOut true =
      (expectedDistinctOutput t runs, []) := by
  induction runs generalizing numOut with
  | nil => simp [streamOfRuns, expectedDistinctOutput, mergeLoop]
  | cons p rest ih =>
    obtain ⟨k, ids⟩ := p
    have hids : ids ≠ [] := hne (k, ids) (by simp)
    obtain ⟨i, ids2, hii⟩ := List.exists_cons_of_ne_nil hids
    subst hii
    have hstream : streamOfRuns ((k, i :: ids2) :: rest) =
        runRows k (i :: ids2) ++ streamOfRuns rest := by
      simp [streamOfRuns]
    have htail : ∀ r, (streamOfRuns rest).head? = some r → r.key ≠ k := by
      intro r hr
      rcases rest with _ | ⟨q, rest2⟩
      · simp [streamOfRuns] at hr
      · have hqne : q.2 ≠ [] := hne q (by simp)
        have hk := streamOfRuns_head_key q rest2 hqne r hr
        rw [hk]
        have hkq : k ≠ q.1 := (List.chain'_cons.mp hadj).1
        exact fun h => hkq h.symm
    have hrest_ne : ∀ p ∈ rest, p.2 ≠ [] := fun p hp => hne p (by simp [hp])
    have hrest_adj : rest.Chain' (fun a b => a.1 ≠ b.1) :=
      (List.chain'_cons'.mp hadj).2
    have hlenb : numOut < maxRows := by
      simp only [List.length_cons] at hbudget; omega
    rw [hstream,
      mergeLoop_run t maxRows k i ids2 numOut true (streamOfRuns rest) htail hlenb]
    have hexp : expectedDistinctOutput t ((k, i :: ids2) :: rest) =
        (if (i :: ids2).all (fun x => decide (t ≤ x)) then
          ({ key := k, sid := (i :: ids2).getLast (by simp) } : SpillStreamRow) ::
            expectedDistinctOutput t rest
        else expectedDistinctOutput t rest) := by
      simp only [expectedDistinctOutput, List.filterMap_cons]
      rcases hc : (i :: ids2).all (fun x => decide (t ≤ x)) with _ | _
      · simp [hc]
      · simp only [hc, if_true]
        rw [List.getLast?_eq_getLast _ (by simp)]
        simp
    rw [hexp]
    have hbrest : numOut + 1 + rest.length ≤ maxRows := by
      simp only [List.length_cons] at hbudget; omega
    have hbrest2 : numOut + rest.length ≤ maxRows := by omega
    rcases hc : (i :: ids2).all (fun x => decide (t ≤ x)) with _ | _
    · simp only [Bool.true_and, hc, Bool.false_eq_true, if_false]
      exact ih numOut hrest_ne hrest_adj hbrest2
    · simp only [Bool.true_and, hc, if_true]
      rw [ih (numOut + 1) hrest_ne hrest_adj hbrest]

/-- Every expected output row is the representative of a run all of whose
stream ordinals are at least the pre-spill distinct-file count. -/
theorem mem_expectedDistinctOutput (t : Nat) (runs : List (Nat × List Nat))
    (r : SpillStreamRow) (hr : r ∈ expectedDistinctOutput t runs) :
    ∃ p ∈ runs, r.key = p.1 ∧ p.2.all (fun i => decide (t ≤ i)) = true := by
  obtain ⟨p, hp, hf⟩ := List.mem_filterMap.mp hr
  refine ⟨p, hp, ?_⟩
  by_cases hall : p.2.all (fun i => decide (t ≤ i)) = true
  · rw [if_pos hall] at hf
    obtain ⟨j, hj1, hj2⟩ := Option.map_eq_some'.mp hf
    exact ⟨by rw [← hj2], hall⟩
  · rw [if_neg hall] at hf
    exact absurd hf (by simp)

/-- Every stream row belongs to a run with its key and carries one of that
run's stream ordinals. -/
theorem mem_streamOfRuns (runs : List (Nat × List Nat)) (row : SpillStreamRow)
    (hrow : row ∈ streamOfRuns runs) :
    ∃ p ∈ runs, row.key = p.1 ∧ row.sid ∈ p.2 := by
  obtain ⟨l, hl, hrl⟩ := List.mem_flatten.mp hrow
  obtain ⟨p, hp, hpl⟩ := List.mem_map.mp hl
  subst hpl
  obtain ⟨i, hi, hieq⟩ := List.mem_map.mp hrl
  exact ⟨p, hp, by rw [← hieq], by rw [← hieq]; exact hi⟩

/-- The expected output keys form a sublist of the run keys. -/
theorem expected_keys_sublist (t : Nat) (runs : List (Nat × List Nat)) :
    ((expectedDistinctOutput t runs).map SpillStreamRow.key).Sublist
      (runs.map Prod.fst) := by
  induction runs with
  | nil => simp [expectedDistinctOutput]
  | cons p rest ih =>
    simp only [expectedDistinctOutput, List.filterMap_cons, List.map_cons]
    by_cases hall : p.2.all (fun i => decide (t ≤ i)) = true
    · rw [if_pos hall]
      rcases hlast : p.2.getLast? with _ | j
      · simp only [Option.map_none']
        exact ih.cons p.1
      · simp only [Option.map_some', List.map_cons]
        exact ih.cons₂ p.1
    · rw [if_neg hall]
      exact ih.cons p.1

/-- C1: during distinct-only spill recovery, for every run of equal keys in
the merged stream the run produces no output row if any contributing stream's
ordinal is below the partition's pre-spill distinct-file count, and otherwise
exactly one representative row for that run is copied to output; consequently
output keys are pairwise distinct and no output key ever occurs in the stream
with a pre-spill distinct ordinal, so no key is emitted twice across pre-spill
distinct output and merge-recovery output. -/
theorem c1_mergeNextWithoutAggregates_runs (t maxRows : Nat)
    (runs : List (Nat × List Nat))
    (hne : ∀ p ∈ runs, p.2 ≠ [])
    (hpw : runs.Pairwise (fun a b => a.1 ≠ b.1))
    (hbudget : runs.length ≤ maxRows) :
    (mergeNextWithoutAggregates t maxRows (streamOfRuns runs)).1 =
      expectedDistinctOutput t runs ∧
    ((expectedDistinctOutput t runs).map SpillStreamRow.key).Nodup ∧
    (∀ r ∈ expectedDistinctOutput t runs, ∀ row ∈ streamOfRuns runs,
      row.key = r.key → t ≤ row.sid) := by
  have hnodup : (runs.map Prod.fst).Nodup := by
    show (runs.map Prod.fst).Pairwise (fun a b => a ≠ b)
    exact List.pairwise_map.mpr hpw
  have hchain : runs.Chain' (fun a b => a.1 ≠ b.1) := hpw.chain'
  have hdrain := mergeLoop_runsOf t maxRows runs 0 hne hchain (by omega)
  refine ⟨?_, ?_, ?_⟩
  · unfold mergeNextWithoutAggregates
    rw [hdrain]
  · exact (expected_keys_sublist t runs).nodup hnodup
  · intro r hr row hrow hkey
    obtain ⟨p, hp, hpk, hall⟩ := mem_expectedDistinctOutput t runs r hr
    obtain ⟨q, hq, hqk, hqs⟩ := mem_streamOfRuns runs row hrow
    have hinj := List.inj_on_of_nodup_map hnodup
    have hpq : q = p := hinj hq hp (by rw [← hqk, hkey]; exact hpk)
    subst hpq
    have hdec := List.all_eq_true.mp hall row.sid hqs
    simpa using hdec

/-- Witness for C1 on a concrete partition: threshold 1, runs with keys 5, 7
and 9 where the runs of keys 5 and 9 each contain a row from pre-spill
distinct stream 0 and are suppressed, while the run of key 7 is emitted
once. -/
theorem c1_mergeNextWithoutAggregates_runs_witness :
    (∀ p ∈ ([(5, [0, 2]), (7, [3]), (9, [2, 0])] : List (Nat × List Nat)),
      p.2 ≠ []) ∧
    ([(5, [0, 2]), (7, [3]), (9, [2, 0])] : List (Nat × List Nat)).Pairwise
      (fun a b => a.1 ≠ b.1) ∧
    ([(5, [0, 2]), (7, [3]), (9, [2, 0])] : List (Nat × List Nat)).length ≤ 10 ∧
    ((mergeNextWithoutAggregates 1 10
        (streamOfRuns [(5, [0, 2]), (7, [3]), (9, [2, 0])])).1 =
      expectedDistinctOutput 1 [(5, [0, 2]), (7, [3]), (9, [2, 0])] ∧
    ((expectedDistinctOutput 1 [(5, [0, 2]), (7, [3]), (9, [2, 0])]).map
      SpillStreamRow.key).Nodup ∧
    (∀ r ∈ expectedDistinctOutput 1 [(5, [0, 2]), (7, [3]), (9, [2, 0])],
      ∀ row ∈ streamOfRuns [(5, [0, 2]), (7, [3]), (9, [2, 0])],
        row.key = r.key → 1 ≤ row.sid)) :=
  ⟨by decide, by decide, by decide,
    c1_mergeNextWithoutAggregates_runs 1 10 [(5, [0, 2]), (7, [3]), (9, [2, 0])]
      (by decide) (by decide) (by decide)⟩

theorem writeAggregateColumns_cons (out : Nat) (rest : List Nat)
    (numRows : Nat) (m : Nat → Nat → CellM) :
    writeAggregateColumns (out :: rest) numRows m =
      writeAggregateColumns rest numRows
        (fun c j =>
          if c = out ∧ j < numRows then CellM.fromGlobalRow out else m c j) :=
  rfl

/-- A column hit by no aggregate output keeps its previous cells. -/
theorem writeAggregateColumns_notMem (aggOutputs : List Nat)
    (numRows c j : Nat) :
    ∀ (m : Nat → Nat → CellM), (∀ out ∈ aggOutputs, c ≠ out) →
      writeAggregateColumns aggOutputs numRows m c j = m c j := by
  induction aggOutputs with
  | nil => intro m _; rfl
  | cons out rest ih =>
    intro m hc
    rw [writeAggregateColumns_cons,
      ih _ (fun o ho => hc o (List.mem_cons_of_mem _ ho))]
    exact if_neg (fun h => hc out (List.mem_cons_self _ _) h.1)

/-- Rows at or beyond the grouping set count are untouched by the aggregate
copy loop. -/
theorem writeAggregateColumns_rowOut (aggOutputs : List Nat)
    (numRows c j : Nat) (hj : numRows ≤ j) :
    ∀ (m : Nat → Nat → CellM),
      writeAggregateColumns aggOutputs numRows m c j = m c j := by
  induction aggOutputs with
  | nil => intro m; rfl
  | cons out rest ih =>
    intro m
    rw [writeAggregateColumns_cons, ih _]
    exact if_neg (fun h => absurd h.2 (by omega))

/-- An aggregate output column receives the global aggregate value in every
grouping set row. -/
theorem writeAggregateColumns_mem (aggOutputs : List Nat) (numRows c j : Nat)
    (hj : j < numRows) :
    ∀ (m : Nat → Nat → CellM), c ∈ aggOutputs →
      writeAggregateColumns aggOutputs numRows m c j =
        CellM.fromGlobalRow c := by
  induction aggOutputs with
  | nil => intro m hc; cases hc
  | cons out rest ih =>
    intro m hc
    rw [writeAggregateColumns_cons]
    by_cases hcr : c ∈ rest
    · exact ih _ hcr
    · have hceq : c = out := by
        rcases List.mem_cons.mp hc with h | h
        · exact h
        · exact absurd h hcr
      rw [writeAggregateColumns_notMem rest numRows c j _
        (fun o ho he => hcr (he ▸ ho))]
      subst hceq
      exact if_pos ⟨rfl, hj⟩

/-- The foldl of min is a lower bound of the seed and the elements. -/
theorem foldl_min_le (l : List Nat) (init : Nat) :
    (∀ x ∈ l, l.foldl min init ≤ x) ∧ l.foldl min init ≤ init := by
  induction l generalizing init with
  | nil => simp
  | cons a rest ih =>
    simp only [List.foldl_cons]
    obtain ⟨h1, h2⟩ := ih (min init a)
    refine ⟨?_, le_trans h2 (min_le_left _ _)⟩
    intro x hx
    rcases List.mem_cons.mp hx with hx | hx
    · rw [hx]; exact le_trans h2 (min_le_right init a)
    · exact h1 x hx

/-- C4: getDefaultGlobalGroupingSetOutput writes exactly one output row per
declared global grouping-set id: in each such row every column before the
first aggregate column is null except the group-id column, which holds that
row's grouping-set id; every aggregate output column is a copy of the same
column of the single computed global-aggregate row; and rows beyond the
grouping-set count are untouched (the result is resized to exactly one row
per id). -/
theorem c4_defaultGGSOutput (numCols : Nat) (aggOutputs : List Nat)
    (groupIdCh : Nat) (ids : List Nat) (m : Nat → Nat → CellM)
    (hgid : groupIdCh < firstAggregateCol numCols aggOutputs) :
    (∀ j, j < ids.length →
      (∀ c, c < firstAggregateCol numCols aggOutputs → c ≠ groupIdCh →
        defaultGGSOutput numCols aggOutputs groupIdCh ids m c j =
          CellM.null) ∧
      defaultGGSOutput numCols aggOutputs groupIdCh ids m groupIdCh j =
        CellM.groupId (ids.getD j 0) ∧
      (∀ out ∈ aggOutputs,
        defaultGGSOutput numCols aggOutputs groupIdCh ids m out j =
          CellM.fromGlobalRow out)) ∧
    (∀ c j, ids.length ≤ j →
      defaultGGSOutput numCols aggOutputs groupIdCh ids m c j = m c j) := by
  have hlow : ∀ out ∈ aggOutputs, firstAggregateCol numCols aggOutputs ≤ out :=
    (foldl_min_le aggOutputs numCols).1
  constructor
  · intro j hj
    refine ⟨?_, ?_, ?_⟩
    · intro c hc hcg
      unfold defaultGGSOutput
      rw [writeAggregateColumns_notMem _ _ _ _ _
        (fun o ho he => absurd (hlow o ho) (by omega))]
      unfold writeGroupingKeyColumns
      rw [if_pos ⟨hc, hj⟩, if_neg hcg]
    · unfold defaultGGSOutput
      rw [writeAggregateColumns_notMem _ _ _ _ _
        (fun o ho he => absurd (hlow o ho) (by omega))]
      unfold writeGroupingKeyColumns
      rw [if_pos ⟨hgid, hj⟩, if_pos rfl]
    · intro out hout
      unfold defaultGGSOutput
      exact writeAggregateColumns_mem aggOutputs ids.length out j hj _ hout
  · intro c j hj
    unfold defaultGGSOutput
    rw [writeAggregateColumns_rowOut _ _ _ _ hj]
    unfold writeGroupingKeyColumns
    exact if_neg (fun h => absurd h.2 (by omega))

/-- Witness for C4: four columns, aggregates writing columns 2 and 3, group-id
column 0, grouping-set ids 0 and 1, over an arbitrary prior matrix. -/
theorem c4_defaultGGSOutput_witness :
    0 < firstAggregateCol 4 [2, 3] ∧
    ((∀ j, j < [0, 1].length →
      (∀ c, c < firstAggregateCol 4 [2, 3] → c ≠ 0 →
        defaultGGSOutput 4 [2, 3] 0 [0, 1] CellM.prior c j = CellM.null) ∧
      defaultGGSOutput 4 [2, 3] 0 [0, 1] CellM.prior 0 j =
        CellM.groupId ([0, 1].getD j 0) ∧
      (∀ out ∈ [2, 3],
        defaultGGSOutput 4 [2, 3] 0 [0, 1] CellM.prior out j =
          CellM.fromGlobalRow out)) ∧
    (∀ c j, [0, 1].length ≤ j →
      defaultGGSOutput 4 [2, 3] 0 [0, 1] CellM.prior c j =
        CellM.prior c j)) :=
  ⟨by decide, c4_defaultGGSOutput 4 [2, 3] 0 [0, 1] CellM.prior (by decide)⟩

/-- C5: noMoreInput flushes any deferred partial run into the grouping store
first, then spills the remaining in-memory state if and only if input
spilling was already triggered on this grouping set, then reserves memory
headroom for output production, in this order; afterwards nothing remains
deferred and a previously triggered spill implies the in-memory table holds
no rows. -/
theorem c5_noMoreInput_order (ins : Nat → Nat → Nat) (s : GSStateM)
    (houtput : s.outputSpiller = false) :
    ∃ s2, noMoreInputM ins s = Except.ok (s2,
        (if s.remainingRows.isSome then [NoMoreInputEvent.flushedRemaining]
          else []) ++
        (if s.inputSpiller then [NoMoreInputEvent.spilled] else []) ++
        [NoMoreInputEvent.reservedOutputHeadroom]) ∧
      s2.remainingRows = none ∧
      s2.noMoreInputFlag = true ∧
      s2.inputSpiller = s.inputSpiller ∧
      (s.inputSpiller = true → s2.tableExists = false ∨ s2.numDistinct = 0) ∧
      (s.inputSpiller = false → s2.spilledRows = s.spilledRows) := by
  rcases hrr : s.remainingRows with _ | r
  · rcases hin : s.inputSpiller with _ | _
    · refine ⟨{ s with noMoreInputFlag := true }, ?_, hrr, rfl, hin, ?_, ?_⟩
      · simp [noMoreInputM, addRemainingInputM, hrr, hin, houtput]
      · intro hcontra; exact absurd hcontra (by simp)
      · intro _; rfl
    · by_cases hempty : s.tableExists = false ∨ s.numDistinct = 0
      · refine ⟨{ s with noMoreInputFlag := true }, ?_, hrr, rfl, hin, ?_, ?_⟩
        · simp [noMoreInputM, addRemainingInputM, spillM, hrr, hin, houtput,
            hempty]
        · intro _; exact hempty
        · intro hcontra; exact absurd hcontra (by simp)
      · refine ⟨{ s with
            noMoreInputFlag := true
            inputSpiller := true
            spilledRows := s.spilledRows + s.numDistinct
            numDistinct := 0 },
          ?_, hrr, rfl, rfl, ?_, ?_⟩
        · simp [noMoreInputM, addRemainingInputM, spillM, hrr, hin, houtput,
            hempty]
        · intro _; right; rfl
        · intro hcontra; exact absurd hcontra (by simp)
  · rcases hin : s.inputSpiller with _ | _
    · refine ⟨{ s with
          noMoreInputFlag := true
          remainingRows := none
          tableExists := true
          numDistinct := ins s.numDistinct r },
        ?_, rfl, rfl, hin, ?_, ?_⟩
      · simp [noMoreInputM, addRemainingInputM, hrr, hin, houtput]
      · intro hcontra; exact absurd hcontra (by simp)
      · intro _; rfl
    · by_cases hempty : ins s.numDistinct r = 0
      · refine ⟨{ s with
            noMoreInputFlag := true
            remainingRows := none
            tableExists := true
            numDistinct := ins s.numDistinct r },
          ?_, rfl, rfl, hin, ?_, ?_⟩
        · simp [noMoreInputM, addRemainingInputM, spillM, hrr, hin, houtput,
            hempty]
        · intro _; right; exact hempty
        · intro hcontra; exact absurd hcontra (by simp)
      · refine ⟨{ s with
            noMoreInputFlag := true
            remainingRows := none
            tableExists := true
            inputSpiller := true
            spilledRows := s.spilledRows + ins s.numDistinct r
            numDistinct := 0 },
          ?_, rfl, rfl, rfl, ?_, ?_⟩
        · simp [noMoreInputM, addRemainingInputM, spillM, hrr, hin, houtput,
            hempty]
        · intro _; right; rfl
        · intro hcontra; exact absurd hcontra (by simp)

/-- Witness for C5 on a state with a deferred three row run, input spilling
already triggered and four in-memory groups. -/
theorem c5_noMoreInput_order_witness :
    c5ExState.outputSpiller = false ∧
    (∃ s2, noMoreInputM c5ExIns c5ExState = Except.ok (s2,
        (if c5ExState.remainingRows.isSome then
          [NoMoreInputEvent.flushedRemaining] else []) ++
        (if c5ExState.inputSpiller then [NoMoreInputEvent.spilled] else []) ++
        [NoMoreInputEvent.reservedOutputHeadroom]) ∧
      s2.remainingRows = none ∧
      s2.noMoreInputFlag = true ∧
      s2.inputSpiller = c5ExState.inputSpiller ∧
      (c5ExState.inputSpiller = true →
        s2.tableExists = false ∨ s2.numDistinct = 0) ∧
      (c5ExState.inputSpiller = false →
        s2.spilledRows = c5ExState.spilledRows)) :=
  ⟨rfl, c5_noMoreInput_order c5ExIns c5ExState rfl⟩

/-- C6: constructing a GroupingSet with isPartial true fails with a fatal
user configuration error as soon as any aggregate has a non-empty sort-key
list or a set distinct flag, and succeeds on the same inputs when no such
aggregate exists; with isPartial false the same inputs always construct
successfully. -/
theorem c6_constructor_partial_checks (numKeys : Nat) (projections : List Nat)
    (aggs : List AggregateInfoM)
    (hprj : projections.isEmpty = true ∨ projections.length = numKeys) :
    ((hasSortedAggregations aggs = true ∨
        aggs.any (fun a => a.distinct) = true) →
      ∃ e, groupingSetConstruct true true numKeys projections true aggs =
        Except.error e) ∧
    (hasSortedAggregations aggs = false →
      aggs.any (fun a => a.distinct) = false →
      groupingSetConstruct true true numKeys projections true aggs =
        Except.ok ()) ∧
    groupingSetConstruct true true numKeys projections false aggs =
      Except.ok () := by
  have hprj3 : ¬ projections = [] → projections.length = numKeys := by
    intro hne
    rcases hprj with h | h
    · exact absurd (List.isEmpty_iff.mp h) hne
    · exact h
  refine ⟨?_, ?_, ?_⟩
  · intro hbad
    by_cases hs : hasSortedAggregations aggs = true
    · exact ⟨"Partial aggregations over sorted inputs are not supported",
        by simp [groupingSetConstruct, hs]; exact hprj3⟩
    · have hd : aggs.any (fun a => a.distinct) = true := hbad.resolve_left hs
      exact ⟨"Partial aggregations over distinct inputs are not supported",
        by simp [groupingSetConstruct, hs, hd]; exact hprj3⟩
  · intro hs hd
    simp [groupingSetConstruct, hs, hd]
    exact hprj3
  · simp [groupingSetConstruct]
    exact hprj3

/-- Witness for C6: with one sorted and one distinct aggregate, partial
construction fails and final construction succeeds. -/
theorem c6_constructor_partial_checks_witness :
    (([] : List Nat).isEmpty = true ∨ ([] : List Nat).length = 2) ∧
    (((hasSortedAggregations c6ExAggs = true ∨
        c6ExAggs.any (fun a => a.distinct) = true) →
      ∃ e, groupingSetConstruct true true 2 [] true c6ExAggs =
        Except.error e) ∧
    (hasSortedAggregations c6ExAggs = false →
      c6ExAggs.any (fun a => a.distinct) = false →
      groupingSetConstruct true true 2 [] true c6ExAggs = Except.ok ()) ∧
    groupingSetConstruct true true 2 [] false c6ExAggs = Except.ok ()) :=
  ⟨by decide, c6_constructor_partial_checks 2 [] c6ExAggs (by decide)⟩

/-- A successful input spill leaves the output spiller absent (or was a
no-op). -/
theorem spillM_ok_outputSpiller (s s2 : GSStateM)
    (h : spillM s = Except.ok s2) : s2 = s ∨ s2.outputSpiller = false := by
  unfold spillM at h
  split at h
  · left
    injection h with h
    exact h.symm
  · split at h
    · exact absurd h (by simp)
    · rename_i hout
      right
      injection h with h
      rw [← h]
      simpa using hout

/-- A successful output spill implies no input spiller existed or exists. -/
theorem spillOutputM_ok_inputSpiller (s s2 : GSStateM)
    (h : spillOutputM s = Except.ok s2) : s2.inputSpiller = false := by
  unfold spillOutputM at h
  rcases hin : s.inputSpiller with _ | _
  · rcases hout : s.outputSpiller with _ | _
    · simp only [hasSpilledM, hin, hout] at h
      simp only [Bool.false_eq_true, if_false] at h
      split at h
      · injection h with h; rw [← h]; exact hin
      · injection h with h; rw [← h]
    · simp [hasSpilledM, hin, hout] at h
  · rcases hout : s.outputSpiller with _ | _
    · simp [hasSpilledM, hin, hout] at h
    · simp [hasSpilledM, hin, hout] at h

/-- A successful noMoreInput leaves the output spiller absent. -/
theorem noMoreInputM_ok_outputSpiller (ins : Nat → Nat → Nat)
    (s s2 : GSStateM) (evs : List NoMoreInputEvent)
    (h : noMoreInputM ins s = Except.ok (s2, evs)) :
    s2.outputSpiller = false := by
  unfold noMoreInputM at h
  rcases hout : (addRemainingInputM ins
      { s with noMoreInputFlag := true }).outputSpiller with _ | _
  · simp only [hout, Bool.false_eq_true, if_false] at h
    rcases hin : (addRemainingInputM ins
        { s with noMoreInputFlag := true }).inputSpiller with _ | _
    · simp only [hin, Bool.false_eq_true, if_false] at h
      injection h with h
      have h2 := congrArg Prod.fst h
      simp at h2
      rw [← h2]
      exact hout
    · simp only [hin, if_true] at h
      rcases hsp : spillM (addRemainingInputM ins
          { s with noMoreInputFlag := true }) with e | s3
      · rw [hsp] at h; exact absurd h (by simp)
      · rw [hsp] at h
        injection h with h
        have h2 := congrArg Prod.fst h
        simp at h2
        rw [← h2]
        rcases spillM_ok_outputSpiller _ _ hsp with h3 | h3
        · rw [h3]; exact hout
        · exact h3
  · simp [hout] at h

/-- The two spiller roles are never both active in any reachable state. -/
theorem gsReachable_not_both (s : GSStateM) (hr : GSReachable s) :
    s.inputSpiller = false ∨ s.outputSpiller = false := by
  induction hr with
  | init => left; rfl
  | step s s2 hr hs ih =>
    cases hs with
    | addInput _ n rr => exact ih
    | noMoreInput ins _ _ evs h =>
      right; exact noMoreInputM_ok_outputSpiller ins _ _ evs h
    | spillInput _ _ h =>
      rcases spillM_ok_outputSpiller _ _ h with h2 | h2
      · rw [h2]; exact ih
      · right; exact h2
    | spillOutput _ _ h => left; exact spillOutputM_ok_inputSpiller _ _ h

/-- Counterexample to C7 as stated: the state reached by output spilling a
five group table is reachable and has an output spiller, yet a subsequent
input spill request (GroupingSet::spill with the table already cleared)
returns normally as a no-op instead of failing a fatal assertion. -/
theorem c7_counterexample_spill_noop :
    GSReachable c7State2 ∧ c7State2.outputSpiller = true ∧
    spillM c7State2 = Except.ok c7State2 := by
  refine ⟨?_, rfl, rfl⟩
  have h1 : GSReachable c7State1 :=
    GSReachable.step initialGSState c7State1 GSReachable.init
      (GSStep.addInput initialGSState 5 none)
  exact GSReachable.step c7State1 c7State2 h1
    (GSStep.spillOutput c7State1 c7State2 rfl)

/-- C7 (amended): in every reachable state inputSpiller_ and outputSpiller_
are never both non-null; starting output spilling when any spill has already
occurred fails a fatal assertion; starting input spilling while an output
spiller exists fails a fatal assertion when the in-memory table still holds
rows, and is a no-op (the state is returned unchanged, no spilling happens)
when the table is absent or empty. -/
theorem c7_spiller_exclusion (s : GSStateM) (hr : GSReachable s) :
    ¬(s.inputSpiller = true ∧ s.outputSpiller = true) ∧
    (s.inputSpiller = true ∨ s.outputSpiller = true →
      ∃ e, spillOutputM s = Except.error e) ∧
    (s.outputSpiller = true → s.tableExists = true → s.numDistinct ≠ 0 →
      ∃ e, spillM s = Except.error e) ∧
    (s.outputSpiller = true → (s.tableExists = false ∨ s.numDistinct = 0) →
      spillM s = Except.ok s) := by
  have hnb := gsReachable_not_both s hr
  refine ⟨?_, ?_, ?_, ?_⟩
  · intro ⟨h1, h2⟩
    rcases hnb with h | h
    · rw [h1] at h; exact absurd h (by simp)
    · rw [h2] at h; exact absurd h (by simp)
  · intro hsp
    rcases hin : s.inputSpiller with _ | _
    · have hout : s.outputSpiller = true := by
        rcases hsp with h | h
        · rw [hin] at h; exact absurd h (by simp)
        · exact h
      exact ⟨"spill(rowIterator): hasSpilled",
        by simp [spillOutputM, hasSpilledM, hin, hout]⟩
    · have hout : s.outputSpiller = false := by
        rcases hnb with h | h
        · rw [hin] at h; exact absurd h (by simp)
        · exact h
      exact ⟨"spill(rowIterator): hasSpilled",
        by simp [spillOutputM, hasSpilledM, hin, hout]⟩
  · intro hout htable hnum
    refine ⟨"spill: outputSpiller is set", ?_⟩
    unfold spillM
    rw [if_neg (by simp [htable, hnum]), if_pos (by simp [hout])]
  · intro _ hempty
    unfold spillM
    have hcond : ¬ s.tableExists = true ∨ s.numDistinct = 0 := by
      rcases hempty with h | h
      · left; simp [h]
      · right; exact h
    rw [if_pos hcond]

/-- Witness for the amended C7 at the reachable output-spilled state. -/
theorem c7_spiller_exclusion_witness :
    GSReachable c7State2 ∧
    (¬(c7State2.inputSpiller = true ∧ c7State2.outputSpiller = true) ∧
     (c7State2.inputSpiller = true ∨ c7State2.outputSpiller = true →
       ∃ e, spillOutputM c7State2 = Except.error e) ∧
     (c7State2.outputSpiller = true → c7State2.tableExists = true →
       c7State2.numDistinct ≠ 0 → ∃ e, spillM c7State2 = Except.error e) ∧
     (c7State2.outputSpiller = true →
       (c7State2.tableExists = false ∨ c7State2.numDistinct = 0) →
       spillM c7State2 = Except.ok c7State2)) := by
  have hreach : GSReachable c7State2 :=
    GSReachable.step c7State1 c7State2
      (GSReachable.step initialGSState c7State1 GSReachable.init
        (GSStep.addInput initialGSState 5 none))
      (GSStep.spillOutput c7State1 c7State2 rfl)
  exact ⟨hreach, c7_spiller_exclusion c7State2 hreach⟩

/-- C9: ensureInputFits is a no-op when the aggregation is partial or no
spill config is present; and when the reservation step is reached (non-empty
table, neither free-slack nor reservation-headroom shortcut applies) and the
pool denies the target increment, the call logs a warning and returns
normally with no error; the denied target is the larger of twice the
estimated increment and the configured percentage of current usage. -/
theorem c9_ensureInputFits (e : InputFitsEnv) :
    ((e.partialAgg = true ∨ e.hasSpillConfig = false) →
      ensureInputFitsM e = InputFitsOutcome.skippedPartialOrNoSpill) ∧
    (e.partialAgg = false → e.hasSpillConfig = true → e.numDistinct ≠ 0 →
      ¬(e.availableReservation ≥
          e.currentUsage * e.minSpillableReservationPct / 100 ∧
        e.tableIncrementBytes = 0 ∧ e.freeRows > e.inputSize ∧
        (outOfLineBytesOf e = 0 ∨
          e.outOfLineFreeBytes ≥ e.inputFlatBytes * 2)) →
      ¬(e.availableReservation ≥
          e.currentUsage * e.minSpillableReservationPct / 100 ∧
        e.availableReservation > 2 * incrementBytesOf e) →
      e.maybeReserve (targetIncrementBytesOf e) = false →
      ensureInputFitsM e = InputFitsOutcome.warnedReservationDenied) ∧
    targetIncrementBytesOf e =
      max (incrementBytesOf e * 2)
        (e.currentUsage * e.spillableReservationGrowthPct / 100) := by
  refine ⟨?_, ?_, rfl⟩
  · intro h
    unfold ensureInputFitsM
    rcases h with h | h <;> simp [h]
  · intro h1 h2 h3 h4 h5 h6
    unfold ensureInputFitsM
    rw [if_neg (by simp [h1, h2]), if_neg h3, if_neg h4, if_neg h5,
      if_neg (by simp [h6])]

/-- Witness for C9: a final aggregation with a spill config whose pool denies
every request ends in the warned outcome, returning normally. -/
theorem c9_ensureInputFits_witness :
    (c9ExEnv.partialAgg = false) ∧ (c9ExEnv.hasSpillConfig = true) ∧
    (c9ExEnv.numDistinct ≠ 0) ∧
    (c9ExEnv.maybeReserve (targetIncrementBytesOf c9ExEnv) = false) ∧
    ensureInputFitsM c9ExEnv = InputFitsOutcome.warnedReservationDenied :=
  ⟨rfl, rfl, by decide,
    rfl,
    (c9_ensureInputFits c9ExEnv).2.1 rfl rfl (by decide) (by decide)
      (by decide) rfl⟩

/-- C10: calling toIntermediate before abandonPartialAggregation fails a
fatal assertion; once abandoned, with intermediate-shape input (isRawInput
false) the result is the input batch itself, unchanged, with no per-aggregate
transformation, masking, or scratch-row allocation. -/
theorem c10_toIntermediate_passthrough {B : Type} (allSupport : Bool)
    (numRows : Nat) (input : B) :
    (∀ rawInput : Bool, ∃ e,
      toIntermediateM false rawInput allSupport numRows input =
        Except.error e) ∧
    toIntermediateM true false allSupport numRows input =
      Except.ok (ToIntermediateResultM.passthrough input) := by
  constructor
  · intro rawInput
    exact ⟨"toIntermediate: abandonedPartialAggregation_ check failed",
      by simp [toIntermediateM]⟩
  · simp [toIntermediateM]

/-- Witness for C10 at a concrete batch value. -/
theorem c10_toIntermediate_passthrough_witness :
    (∃ e, toIntermediateM false true true 3 (42 : Nat) = Except.error e) ∧
    toIntermediateM true false true 3 (42 : Nat) =
      Except.ok (ToIntermediateResultM.passthrough 42) :=
  ⟨(c10_toIntermediate_passthrough true 3 (42 : Nat)).1 true,
    (c10_toIntermediate_passthrough true 3 (42 : Nat)).2⟩

/-- What prepareNextSpillPartitionOutput guarantees of a successful return:
every getOutput dispatch field is untouched, the merge reader exists exactly
when a partition was selected, a false verdict returns the input with merge_
dropped, and a true verdict selects a nonnegative partition and consumes one
entry of the pending partition list. -/
theorem prepareNext_ok {G : Type} (st st2 : OutputStateM G) (b : Bool)
    (h : prepareNextSpillPartitionOutputM st = Except.ok (b, st2)) :
    st2.globalMode = st.globalMode ∧
    st2.defaultGGSMode = st.defaultGGSMode ∧
    st2.hasSpilledFlag = st.hasSpilledFlag ∧
    st2.isDistinctFlag = st.isDistinctFlag ∧
    st2.mergeRowsExists = st.mergeRowsExists ∧
    st2.tableRows = st.tableRows ∧
    st2.mergeExists = b ∧
    (b = false → st2 = { st with mergeExists := false }) ∧
    (b = true → 0 ≤ st2.outputSpillPartition ∧
      (st.isDistinctFlag = true →
        st2.distinctParts.length + 1 = st.distinctParts.length) ∧
      (st.isDistinctFlag = false →
        st2.aggParts.length + 1 = st.aggParts.length)) := by
  obtain ⟨gm, dm, gr, ggs, te, tr, hsf, idf, mre, me, osp, ct, cdr, car, dp, ap⟩ := st
  unfold prepareNextSpillPartitionOutputM at h
  dsimp only at h
  by_cases hchk : ((!me) != decide (osp = -1)) = true
  · rw [if_pos hchk] at h
    simp at h
  · rw [if_neg hchk] at h
    cases idf with
    | true =>
      cases dp with
      | nil =>
        simp only [if_true] at h
        simp only [Except.ok.injEq, Prod.mk.injEq] at h
        obtain ⟨hb, hst2⟩ := h
        subst hb
        rw [← hst2]
        refine ⟨rfl, rfl, rfl, rfl, rfl, rfl, rfl, fun _ => rfl, fun hc => ?_⟩
        exact absurd hc (by simp)
      | cons p rest =>
        simp only [if_true] at h
        by_cases hrep : osp = Int.ofNat p.num
        · rw [if_pos hrep] at h
          simp at h
        · rw [if_neg hrep] at h
          simp only [Except.ok.injEq, Prod.mk.injEq] at h
          obtain ⟨hb, hst2⟩ := h
          subst hb
          rw [← hst2]
          refine ⟨rfl, rfl, rfl, rfl, rfl, rfl, rfl,
            fun hc => absurd hc (by simp),
            fun _ => ⟨by simp, fun _ => by simp, fun hcon => absurd hcon (by simp)⟩⟩
    | false =>
      cases ap with
      | nil =>
        simp only [Bool.false_eq_true, if_false] at h
        simp only [Except.ok.injEq, Prod.mk.injEq] at h
        obtain ⟨hb, hst2⟩ := h
        subst hb
        rw [← hst2]
        refine ⟨rfl, rfl, rfl, rfl, rfl, rfl, rfl, fun _ => rfl, fun hc => ?_⟩
        exact absurd hc (by simp)
      | cons p rest =>
        simp only [Bool.false_eq_true, if_false] at h
        by_cases hrep : osp = Int.ofNat p.num
        · rw [if_pos hrep] at h
          simp at h
        · rw [if_neg hrep] at h
          simp only [Except.ok.injEq, Prod.mk.injEq] at h
          obtain ⟨hb, hst2⟩ := h
          subst hb
          rw [← hst2]
          refine ⟨rfl, rfl, rfl, rfl, rfl, rfl, rfl,
            fun hc => absurd hc (by simp),
            fun _ => ⟨by simp, fun hcon => absurd hcon (by simp), fun _ => by simp⟩⟩

/-- A distinct-mode drain that returns false with a positive row budget has
dropped the merge reader, preserved every getOutput dispatch field and the
table contents, and never moved the selected-partition marker back to -1. -/
theorem mergeNextWithoutAggregatesFullM_false {G : Type} (maxRows : Nat)
    (hmax : 1 ≤ maxRows) :
    ∀ (parts : List DistinctPartitionM) (st st2 : OutputStateM G)
      (rows : List SpillStreamRow),
      st.isDistinctFlag = true →
      mergeNextWithoutAggregatesFullM maxRows parts st =
        Except.ok (false, st2, rows) →
      st2.mergeExists = false ∧
      st2.globalMode = st.globalMode ∧
      st2.defaultGGSMode = st.defaultGGSMode ∧
      st2.hasSpilledFlag = st.hasSpilledFlag ∧
      st2.isDistinctFlag = st.isDistinctFlag ∧
      st2.mergeRowsExists = st.mergeRowsExists ∧
      st2.tableRows = st.tableRows ∧
      (st.outputSpillPartition ≠ -1 → st2.outputSpillPartition ≠ -1) := by
  intro parts
  induction parts with
  | nil =>
    intro st st2 rows hdist h
    rw [mergeNextWithoutAggregatesFullM] at h
    rcases hml : mergeLoop st.currentT maxRows st.currentDistinctRows 0 true
      with ⟨out, rest⟩
    rw [hml] at h
    dsimp only at h
    by_cases hout : out.isEmpty
    · rw [if_pos hout, if_neg (by omega)] at h
      rcases hprep : prepareNextSpillPartitionOutputM
          { st with currentDistinctRows := [], distinctParts := [] }
        with e | ⟨b, stp⟩
      · rw [hprep] at h
        simp at h
      · rw [hprep] at h
        obtain ⟨h1, h2, h3, h4, h5, h6, h7, h8, h9⟩ :=
          prepareNext_ok _ _ _ hprep
        simp only [Except.ok.injEq, Prod.mk.injEq] at h
        obtain ⟨_, hst2, hrows⟩ := h
        cases b with
        | true =>
          obtain ⟨_, hlen, _⟩ := h9 rfl
          have hcon := hlen hdist
          simp at hcon
        | false =>
          rw [← hst2]
          refine ⟨h7, h1, h2, h3, h4, h5, h6, fun hp => ?_⟩
          rw [h8 rfl]
          exact hp
    · rw [if_neg hout] at h
      simp at h
  | cons p rest2 ih =>
    intro st st2 rows hdist h
    rw [mergeNextWithoutAggregatesFullM] at h
    rcases hml : mergeLoop st.currentT maxRows st.currentDistinctRows 0 true
      with ⟨out, rest⟩
    rw [hml] at h
    dsimp only at h
    by_cases hout : out.isEmpty
    · rw [if_pos hout, if_neg (by omega)] at h
      rcases hprep : prepareNextSpillPartitionOutputM
          { st with currentDistinctRows := [], distinctParts := p :: rest2 }
        with e | ⟨b, stp⟩
      · rw [hprep] at h
        simp at h
      · rw [hprep] at h
        obtain ⟨h1, h2, h3, h4, h5, h6, h7, h8, h9⟩ :=
          prepareNext_ok _ _ _ hprep
        cases b with
        | false =>
          dsimp only at h
          simp only [Except.ok.injEq, Prod.mk.injEq] at h
          obtain ⟨_, hst2, hrows⟩ := h
          rw [← hst2]
          refine ⟨h7, h1, h2, h3, h4, h5, h6, fun hp => ?_⟩
          rw [h8 rfl]
          exact hp
        | true =>
          dsimp only at h
          obtain ⟨hnn, _, _⟩ := h9 rfl
          obtain ⟨g1, g2, g3, g4, g5, g6, g7, g8⟩ :=
            ih stp st2 rows (h4.trans hdist) h
          refine ⟨g1, g2.trans h1, g3.trans h2, g4.trans h3, g5.trans h4,
            g6.trans h5, g7.trans h6, fun _ => g8 (by omega)⟩
    · rw [if_neg hout] at h
      simp at h

/-- The aggregate-mode drain that returns false has dropped the merge reader,
preserved every getOutput dispatch field and the table contents, and never
moved the selected-partition marker back to -1. -/
theorem mergeNextWithAggregatesFullM_false {G : Type} (updA : Nat → Nat → Nat)
    (initA maxRows : Nat) :
    ∀ (parts : List AggPartitionM) (st st2 : OutputStateM G)
      (rows : List (Nat × Nat)),
      st.isDistinctFlag = false →
      mergeNextWithAggregatesFullM updA initA maxRows parts st =
        Except.ok (false, st2, rows) →
      st2.mergeExists = false ∧
      st2.globalMode = st.globalMode ∧
      st2.defaultGGSMode = st.defaultGGSMode ∧
      st2.hasSpilledFlag = st.hasSpilledFlag ∧
      st2.isDistinctFlag = st.isDistinctFlag ∧
      st2.mergeRowsExists = st.mergeRowsExists ∧
      st2.tableRows = st.tableRows ∧
      (st.outputSpillPartition ≠ -1 → st2.outputSpillPartition ≠ -1) := by
  intro parts
  induction parts with
  | nil =>
    intro st st2 rows hdist h
    rw [mergeNextWithAggregatesFullM] at h
    rcases hal : mergeAggLoop updA initA maxRows st.currentAggRows [] initA
      with ⟨emitted, rows0, rest⟩
    rw [hal] at h
    dsimp only at h
    cases emitted with
    | true =>
      rw [if_pos rfl] at h
      simp at h
    | false =>
      rw [if_neg (by simp)] at h
      rcases hprep : prepareNextSpillPartitionOutputM
          { st with currentAggRows := [], aggParts := [] }
        with e | ⟨b, stp⟩
      · rw [hprep] at h
        simp at h
      · rw [hprep] at h
        obtain ⟨h1, h2, h3, h4, h5, h6, h7, h8, h9⟩ :=
          prepareNext_ok _ _ _ hprep
        simp only [Except.ok.injEq, Prod.mk.injEq] at h
        obtain ⟨_, hst2, hrows⟩ := h
        cases b with
        | true =>
          obtain ⟨_, _, hlen⟩ := h9 rfl
          have hcon := hlen hdist
          simp at hcon
        | false =>
          rw [← hst2]
          refine ⟨h7, h1, h2, h3, h4, h5, h6, fun hp => ?_⟩
          rw [h8 rfl]
          exact hp
  | cons p rest2 ih =>
    intro st st2 rows hdist h
    rw [mergeNextWithAggregatesFullM] at h
    rcases hal : mergeAggLoop updA initA maxRows st.currentAggRows [] initA
      with ⟨emitted, rows0, rest⟩
    rw [hal] at h
    dsimp only at h
    cases emitted with
    | true =>
      rw [if_pos rfl] at h
      simp at h
    | false =>
      rw [if_neg (by simp)] at h
      rcases hprep : prepareNextSpillPartitionOutputM
          { st with currentAggRows := [], aggParts := p :: rest2 }
        with e | ⟨b, stp⟩
      · rw [hprep] at h
        simp at h
      · rw [hprep] at h
        obtain ⟨h1, h2, h3, h4, h5, h6, h7, h8, h9⟩ :=
          prepareNext_ok _ _ _ hprep
        cases b with
        | false =>
          dsimp only at h
          simp only [Except.ok.injEq, Prod.mk.injEq] at h
          obtain ⟨_, hst2, hrows⟩ := h
          rw [← hst2]
          refine ⟨h7, h1, h2, h3, h4, h5, h6, fun hp => ?_⟩
          rw [h8 rfl]
          exact hp
        | true =>
          dsimp only at h
          obtain ⟨hnn, _, _⟩ := h9 rfl
          obtain ⟨g1, g2, g3, g4, g5, g6, g7, g8⟩ :=
            ih stp st2 rows (h4.trans hdist) h
          refine ⟨g1, g2.trans h1, g3.trans h2, g4.trans h3, g5.trans h4,
            g6.trans h5, g7.trans h6, fun _ => g8 (by omega)⟩

/-- mergeNext returning false (with a positive row budget) has dropped the
merge reader, preserved every getOutput dispatch field and the table
contents, and never moved the selected-partition marker back to -1. -/
theorem mergeNextFullM_false {G : Type} (updA : Nat → Nat → Nat)
    (initA maxRows : Nat) (hmax : 1 ≤ maxRows) (st st2 : OutputStateM G)
    (rows : GetOutputRowsM G)
    (h : mergeNextFullM updA initA maxRows st = Except.ok (false, st2, rows)) :
    st2.mergeExists = false ∧
    st2.globalMode = st.globalMode ∧
    st2.defaultGGSMode = st.defaultGGSMode ∧
    st2.hasSpilledFlag = st.hasSpilledFlag ∧
    st2.isDistinctFlag = st.isDistinctFlag ∧
    st2.mergeRowsExists = st.mergeRowsExists ∧
    st2.tableRows = st.tableRows ∧
    (st.outputSpillPartition ≠ -1 → st2.outputSpillPartition ≠ -1) := by
  unfold mergeNextFullM at h
  by_cases hdist : st.isDistinctFlag = true
  · rw [if_pos hdist] at h
    rcases hd : mergeNextWithoutAggregatesFullM maxRows st.distinctParts st
      with e | ⟨more, stp, rws⟩
    · rw [hd] at h
      simp at h
    · rw [hd] at h
      dsimp only at h
      simp only [Except.ok.injEq, Prod.mk.injEq] at h
      obtain ⟨hmore, hst2, _⟩ := h
      rw [hmore] at hd
      rw [← hst2]
      exact mergeNextWithoutAggregatesFullM_false maxRows hmax
        st.distinctParts st stp rws hdist hd
  · rw [if_neg hdist] at h
    have hdf : st.isDistinctFlag = false := by simpa using hdist
    rcases hd : mergeNextWithAggregatesFullM updA initA maxRows st.aggParts st
      with e | ⟨more, stp, rws⟩
    · rw [hd] at h
      simp at h
    · rw [hd] at h
      dsimp only at h
      simp only [Except.ok.injEq, Prod.mk.injEq] at h
      obtain ⟨hmore, hst2, _⟩ := h
      rw [hmore] at hd
      rw [← hst2]
      exact mergeNextWithAggregatesFullM_false updA initA maxRows
        st.aggParts st stp rws hdf hd

/-- getOutputWithSpill returning false (with a positive row budget) leaves a
state whose merge reader is gone, with every dispatch flag preserved; and
when no partition was ever selected the merge row container exists exactly
for a non-distinct grouping set (so the next call re-enters the fatal
mergeRows_ assertion there, and the fatal merge_ assertion otherwise). -/
theorem getOutputWithSpillM_false {G : Type} (updA : Nat → Nat → Nat)
    (initA maxRows : Nat) (hmax : 1 ≤ maxRows) (st st2 : OutputStateM G)
    (rows : GetOutputRowsM G)
    (h : getOutputWithSpillM updA initA maxRows st =
      Except.ok (false, st2, rows)) :
    st2.mergeExists = false ∧
    st2.globalMode = st.globalMode ∧
    st2.defaultGGSMode = st.defaultGGSMode ∧
    st2.hasSpilledFlag = st.hasSpilledFlag ∧
    st2.isDistinctFlag = st.isDistinctFlag ∧
    (st2.outputSpillPartition = -1 →
      st2.mergeRowsExists = (!st.isDistinctFlag)) := by
  unfold getOutputWithSpillM at h
  by_cases hosp : st.outputSpillPartition = -1
  · rw [if_pos hosp] at h
    by_cases hmre : st.mergeRowsExists = true
    · rw [if_pos hmre] at h
      simp at h
    · rw [if_neg hmre] at h
      dsimp only at h
      by_cases htab : st.tableRows.isEmpty = true
      · rw [if_neg (by simp [htab])] at h
        by_cases hme : st.mergeExists = true
        · rw [if_pos hme] at h
          simp at h
        · rw [if_neg hme] at h
          rcases hprep : prepareNextSpillPartitionOutputM
              { st with mergeRowsExists := !st.isDistinctFlag }
            with e | ⟨b, stp⟩
          · rw [hprep] at h
            simp at h
          · rw [hprep] at h
            obtain ⟨h1, h2, h3, h4, h5, h6, h7, h8, h9⟩ :=
              prepareNext_ok _ _ _ hprep
            cases b with
            | false =>
              dsimp only at h
              simp only [Except.ok.injEq, Prod.mk.injEq] at h
              obtain ⟨_, hst2, _⟩ := h
              rw [← hst2]
              refine ⟨h7, h1, h2, h3, h4, fun _ => ?_⟩
              rw [h8 rfl]
            | true =>
              dsimp only at h
              obtain ⟨hnn, _, _⟩ := h9 rfl
              obtain ⟨g1, g2, g3, g4, g5, g6, g7, g8⟩ :=
                mergeNextFullM_false updA initA maxRows hmax stp st2 rows h
              refine ⟨g1, g2.trans h1, g3.trans h2, g4.trans h3, g5.trans h4,
                fun hc => absurd hc (g8 (by omega))⟩
      · rw [if_pos (by simp [htab])] at h
        simp at h
  · rw [if_neg hosp] at h
    by_cases hme : st.mergeExists = true
    · rw [if_neg (by simp [hme])] at h
      obtain ⟨g1, g2, g3, g4, g5, g6, g7, g8⟩ :=
        mergeNextFullM_false updA initA maxRows hmax st st2 rows h
      exact ⟨g1, g2, g3, g4, g5, fun hc => absurd hc (g8 hosp)⟩
    · rw [if_pos (by simp [hme])] at h
      simp at h

/-- C2 counterexample to universal exhaustion idempotence: on the spill
recovery path of getOutput (the branch the claim quantifies over as well), a
distinct-only grouping set with one spilled partition yields its row on the
first call and reports exhaustion on the second; the third call, instead of
returning false again, fails the fatal VELOX_CHECK_NOT_NULL(merge_) assertion
of getOutputWithSpill (line 1123), because prepareNextSpillPartitionOutput
dropped the merge reader while leaving outputSpillPartition_ at 0. -/
theorem c2_counterexample_repeat_fatal :
    getOutputM c2ExUpd 0 c2SpillSt0 10 c2ExIter =
      Except.ok (true, c2SpillSt1, c2ExIter,
        GetOutputRowsM.distinctRows [⟨5, 2⟩]) ∧
    getOutputM c2ExUpd 0 c2SpillSt1 10 c2ExIter =
      Except.ok (false, c2SpillSt2, c2ExIter,
        GetOutputRowsM.distinctRows []) ∧
    getOutputM c2ExUpd 0 c2SpillSt2 10 c2ExIter =
      Except.error "getOutputWithSpill: merge_ is null" := by
  refine ⟨?_, ?_, ?_⟩ <;> rfl

/-- C2: what GroupingSet::getOutput guarantees about its false return and
repeat calls, per dispatch path (amending the claim's universal idempotence).
On the cursor-driven paths the claim holds: in global mode the single row is
extracted exactly once and every later call returns false ((A1)/(A2)); the
default global grouping set path behaves the same ((B1)/(B2)); the keyed
in-memory path (never spilled, which requires a non-distinct grouping set by
the line-754 check) returns false exactly when no rows remain, at exhaustion
emits nothing, leaves the iterator in place and stays exhausted, and
otherwise emits the next disjoint advancing cursor segment ((C)).  On the
spill recovery path idempotence fails: with the merge reader gone but a
partition still selected a call fatally asserts (line 1123), as it does with
a stale merge row container and no partition selected (line 1082) ((D1)/
(D2)); and every false return of that path leaves exactly such a state
((E)), so a repeat call after recovery exhaustion asserts instead of
returning false, except for a distinct-only set that never had a spilled
partition. -/
theorem c2_getOutput_paths {G : Type} (updA : Nat → Nat → Nat) (initA : Nat)
    (st : OutputStateM G) (maxRows : Nat) (it : RowContainerIteratorM)
    (hmax : 1 ≤ maxRows) :
    (st.globalMode = true → it.allocationIndex = 0 →
      getOutputM updA initA st maxRows it =
        Except.ok (true, st, { it with allocationIndex := int32Max },
          GetOutputRowsM.cursorRows [st.globalRow]) ∧
      ¬ noMoreRowsM st it ∧
      noMoreRowsM st { it with allocationIndex := int32Max }) ∧
    (st.globalMode = true → it.allocationIndex ≠ 0 →
      getOutputM updA initA st maxRows it =
        Except.ok (false, st, it, GetOutputRowsM.cursorRows []) ∧
      noMoreRowsM st it) ∧
    (st.globalMode = false → st.defaultGGSMode = true →
      it.allocationIndex = 0 →
      getOutputM updA initA st maxRows it =
        Except.ok (true, st, { it with allocationIndex := int32Max },
          GetOutputRowsM.cursorRows st.ggsRows) ∧
      ¬ noMoreRowsM st it ∧
      noMoreRowsM st { it with allocationIndex := int32Max }) ∧
    (st.globalMode = false → st.defaultGGSMode = true →
      it.allocationIndex ≠ 0 →
      getOutputM updA initA st maxRows it =
        Except.ok (false, st, it, GetOutputRowsM.cursorRows []) ∧
      noMoreRowsM st it) ∧
    (st.globalMode = false → st.defaultGGSMode = false →
      st.hasSpilledFlag = false → st.isDistinctFlag = false →
      ∃ more st2 it2 rws,
        getOutputM updA initA st maxRows it =
          Except.ok (more, st2, it2, GetOutputRowsM.cursorRows rws) ∧
        (more = false ↔ noMoreRowsM st it) ∧
        (noMoreRowsM st it → rws = [] ∧ it2 = it ∧ noMoreRowsM st2 it2) ∧
        rws = (st.tableRows.drop it.rowNumber).take rws.length ∧
        it2.rowNumber = it.rowNumber + rws.length ∧
        st2.globalMode = false ∧ st2.defaultGGSMode = false ∧
        st2.hasSpilledFlag = false ∧ st2.isDistinctFlag = false) ∧
    (st.globalMode = false → st.defaultGGSMode = false →
      st.hasSpilledFlag = true → st.outputSpillPartition ≠ -1 →
      st.mergeExists = false →
      getOutputM updA initA st maxRows it =
        Except.error "getOutputWithSpill: merge_ is null") ∧
    (st.globalMode = false → st.defaultGGSMode = false →
      st.hasSpilledFlag = true → st.outputSpillPartition = -1 →
      st.mergeRowsExists = true →
      getOutputM updA initA st maxRows it =
        Except.error "getOutputWithSpill: mergeRows_ is not null") ∧
    (∀ st2 it2 rws, st.globalMode = false → st.defaultGGSMode = false →
      st.hasSpilledFlag = true →
      getOutputM updA initA st maxRows it =
        Except.ok (false, st2, it2, rws) →
      st2.mergeExists = false ∧ st2.globalMode = false ∧
      st2.defaultGGSMode = false ∧ st2.hasSpilledFlag = true ∧
      st2.isDistinctFlag = st.isDistinctFlag ∧
      (st2.outputSpillPartition = -1 →
        st2.mergeRowsExists = (!st.isDistinctFlag))) := by
  refine ⟨?_, ?_, ?_, ?_, ?_, ?_, ?_, ?_⟩
  · intro hg ha
    refine ⟨by simp [getOutputM, getGlobalAggregationOutputM, hg, ha], ?_, ?_⟩
    · simp [noMoreRowsM, hg, ha]
    · simp [noMoreRowsM, hg, int32Max]
  · intro hg ha
    refine ⟨by simp [getOutputM, getGlobalAggregationOutputM, hg, ha], ?_⟩
    simp [noMoreRowsM, hg, ha]
  · intro hg hd ha
    refine ⟨by simp [getOutputM, getGlobalAggregationOutputM,
      getDefaultGlobalGroupingSetOutputM, hg, hd, ha], ?_, ?_⟩
    · simp [noMoreRowsM, hg, hd, ha]
    · simp [noMoreRowsM, hg, hd, int32Max]
  · intro hg hd ha
    refine ⟨by simp [getOutputM, getGlobalAggregationOutputM,
      getDefaultGlobalGroupingSetOutputM, hg, hd, ha], ?_⟩
    simp [noMoreRowsM, hg, hd, ha]
  · intro hg hd hs hdist
    have hnm : noMoreRowsM st it ↔
        (¬ st.tableExists = true ∨ st.tableRows.length ≤ it.rowNumber) := by
      unfold noMoreRowsM
      simp [hg, hd]
    by_cases hte : st.tableExists = true
    · by_cases h0 : listRowsM st.tableRows it.rowNumber maxRows = 0
      · have hle : st.tableRows.length ≤ it.rowNumber := by
          rw [listRowsM] at h0
          omega
        have hnm2 : noMoreRowsM { st with tableRows := ([] : List G) } it := by
          unfold noMoreRowsM
          simp [hg, hd]
        refine ⟨false, { st with tableRows := [] }, it, [],
          by simp [getOutputM, hg, hd, hs, hdist, hte, h0], ?_, ?_, by simp,
          by simp, hg, hd, hs, hdist⟩
        · exact iff_of_true rfl (hnm.mpr (Or.inr hle))
        · exact fun _ => ⟨rfl, rfl, hnm2⟩
      · have hlt : it.rowNumber < st.tableRows.length := by
          rw [listRowsM] at h0
          omega
        have hlen : ((st.tableRows.drop it.rowNumber).take (listRowsM st.tableRows it.rowNumber maxRows)).length = listRowsM st.tableRows it.rowNumber maxRows := by
          rw [listRowsM]
          simp
        have hnot : ¬ noMoreRowsM st it := by
          rw [hnm]
          push_neg
          exact ⟨hte, by omega⟩
        refine ⟨true, st, { it with rowNumber := it.rowNumber + listRowsM st.tableRows it.rowNumber maxRows }, (st.tableRows.drop it.rowNumber).take (listRowsM st.tableRows it.rowNumber maxRows), by simp [getOutputM, hg, hd, hs, hdist, hte, h0], ?_, ?_, ?_, ?_, hg, hd, hs, hdist⟩
        · exact iff_of_false (by simp) hnot
        · exact fun hcon => absurd hcon hnot
        · rw [hlen]
        · rw [hlen]
    · have hnm2 : noMoreRowsM { st with tableRows := ([] : List G) } it := by
        unfold noMoreRowsM
        simp [hg, hd]
      refine ⟨false, { st with tableRows := [] }, it, [],
        by simp [getOutputM, hg, hd, hs, hdist, hte], ?_, ?_, by simp,
        by simp, hg, hd, hs, hdist⟩
      · exact iff_of_true rfl (hnm.mpr (Or.inl hte))
      · exact fun _ => ⟨rfl, rfl, hnm2⟩
  · intro hg hd hs hosp hme
    have hsp : getOutputWithSpillM updA initA maxRows st =
        Except.error "getOutputWithSpill: merge_ is null" := by
      unfold getOutputWithSpillM
      rw [if_neg hosp, if_pos (by simp [hme])]
    simp [getOutputM, hg, hd, hs, hsp]
  · intro hg hd hs hosp hmre
    have hsp : getOutputWithSpillM updA initA maxRows st =
        Except.error "getOutputWithSpill: mergeRows_ is not null" := by
      unfold getOutputWithSpillM
      rw [if_pos hosp, if_pos hmre]
    simp [getOutputM, hg, hd, hs, hsp]
  · intro st2 it2 rws hg hd hs h
    simp only [getOutputM, hg, hd, hs, Bool.false_eq_true, if_false,
      if_true] at h
    rcases hsp : getOutputWithSpillM updA initA maxRows st
      with e | ⟨more, stp, r⟩
    · rw [hsp] at h
      simp at h
    · rw [hsp] at h
      dsimp only at h
      simp only [Except.ok.injEq, Prod.mk.injEq] at h
      obtain ⟨hmore, hst2, hit2, hr⟩ := h
      rw [hmore] at hsp
      obtain ⟨g1, g2, g3, g4, g5, g6⟩ :=
        getOutputWithSpillM_false updA initA maxRows hmax st stp r hsp
      rw [← hst2]
      exact ⟨g1, g2.trans hg, g3.trans hd, g4.trans hs, g5, g6⟩

/-- Witness instantiating the C2 theorem at the refuting spill-recovery state
c2SpillSt2 with a positive row budget, where conjunct (D1) is the live one:
the call fatally asserts on the dropped merge reader. -/
theorem c2_getOutput_paths_witness :
    1 ≤ 10 ∧
    ((c2SpillSt2.globalMode = true → c2ExIter.allocationIndex = 0 →
      getOutputM c2ExUpd 0 c2SpillSt2 10 c2ExIter =
        Except.ok (true, c2SpillSt2,
          { c2ExIter with allocationIndex := int32Max },
          GetOutputRowsM.cursorRows [c2SpillSt2.globalRow]) ∧
      ¬ noMoreRowsM c2SpillSt2 c2ExIter ∧
      noMoreRowsM c2SpillSt2 { c2ExIter with allocationIndex := int32Max }) ∧
    (c2SpillSt2.globalMode = true → c2ExIter.allocationIndex ≠ 0 →
      getOutputM c2ExUpd 0 c2SpillSt2 10 c2ExIter =
        Except.ok (false, c2SpillSt2, c2ExIter, GetOutputRowsM.cursorRows []) ∧
      noMoreRowsM c2SpillSt2 c2ExIter) ∧
    (c2SpillSt2.globalMode = false → c2SpillSt2.defaultGGSMode = true →
      c2ExIter.allocationIndex = 0 →
      getOutputM c2ExUpd 0 c2SpillSt2 10 c2ExIter =
        Except.ok (true, c2SpillSt2,
          { c2ExIter with allocationIndex := int32Max },
          GetOutputRowsM.cursorRows c2SpillSt2.ggsRows) ∧
      ¬ noMoreRowsM c2SpillSt2 c2ExIter ∧
      noMoreRowsM c2SpillSt2 { c2ExIter with allocationIndex := int32Max }) ∧
    (c2SpillSt2.globalMode = false → c2SpillSt2.defaultGGSMode = true →
      c2ExIter.allocationIndex ≠ 0 →
      getOutputM c2ExUpd 0 c2SpillSt2 10 c2ExIter =
        Except.ok (false, c2SpillSt2, c2ExIter, GetOutputRowsM.cursorRows []) ∧
      noMoreRowsM c2SpillSt2 c2ExIter) ∧
    (c2SpillSt2.globalMode = false → c2SpillSt2.defaultGGSMode = false →
      c2SpillSt2.hasSpilledFlag = false → c2SpillSt2.isDistinctFlag = false →
      ∃ more st2 it2 rws,
        getOutputM c2ExUpd 0 c2SpillSt2 10 c2ExIter =
          Except.ok (more, st2, it2, GetOutputRowsM.cursorRows rws) ∧
        (more = false ↔ noMoreRowsM c2SpillSt2 c2ExIter) ∧
        (noMoreRowsM c2SpillSt2 c2ExIter →
          rws = [] ∧ it2 = c2ExIter ∧ noMoreRowsM st2 it2) ∧
        rws = (c2SpillSt2.tableRows.drop c2ExIter.rowNumber).take rws.length ∧
        it2.rowNumber = c2ExIter.rowNumber + rws.length ∧
        st2.globalMode = false ∧ st2.defaultGGSMode = false ∧
        st2.hasSpilledFlag = false ∧ st2.isDistinctFlag = false) ∧
    (c2SpillSt2.globalMode = false → c2SpillSt2.defaultGGSMode = false →
      c2SpillSt2.hasSpilledFlag = true →
      c2SpillSt2.outputSpillPartition ≠ -1 →
      c2SpillSt2.mergeExists = false →
      getOutputM c2ExUpd 0 c2SpillSt2 10 c2ExIter =
        Except.error "getOutputWithSpill: merge_ is null") ∧
    (c2SpillSt2.globalMode = false → c2SpillSt2.defaultGGSMode = false →
      c2SpillSt2.hasSpilledFlag = true →
      c2SpillSt2.outputSpillPartition = -1 →
      c2SpillSt2.mergeRowsExists = true →
      getOutputM c2ExUpd 0 c2SpillSt2 10 c2ExIter =
        Except.error "getOutputWithSpill: mergeRows_ is not null") ∧
    (∀ st2 it2 rws, c2SpillSt2.globalMode = false →
      c2SpillSt2.defaultGGSMode = false → c2SpillSt2.hasSpilledFlag = true →
      getOutputM c2ExUpd 0 c2SpillSt2 10 c2ExIter =
        Except.ok (false, st2, it2, rws) →
      st2.mergeExists = false ∧ st2.globalMode = false ∧
      st2.defaultGGSMode = false ∧ st2.hasSpilledFlag = true ∧
      st2.isDistinctFlag = c2SpillSt2.isDistinctFlag ∧
      (st2.outputSpillPartition = -1 →
        st2.mergeRowsExists = (!c2SpillSt2.isDistinctFlag)))) :=
  ⟨by decide, c2_getOutput_paths c2ExUpd 0 c2SpillSt2 10 c2ExIter (by decide)⟩

end VeloxGS
